import Mathlib

/-!
# qr-gen2: verification of the request-to-image pipeline of `main.go`

The development embeds the functions of `main.go` as executable Lean
definitions and proves the properties of the specification about them.

Conventions of the embedding

* A Go `string` is a sequence of bytes: `GoString := List Nat`, each element a
  byte value `0..255`.  `len(s)` is `List.length`.
* A Go call returning `(value, error)` is an `Except`; where the body slices a
  string, a slice out of range (a run-time panic in Go) is the separate
  constructor `Outcome.outOfRange`.
* The standard-library and third-party functions the program calls
  (`strings.TrimPrefix`, `fmt.Sprintf("%c")`, `strconv.ParseUint`,
  `strconv.Atoi`, `strings.ToUpper`, `base64.URLEncoding`, gin's query access,
  the `go-qrcode` encoder) are modelled next to the function that uses them.
-/

namespace QrGen

/-! ## Strings -/

/-- A Go string: a sequence of bytes (values `0..255`). -/
abbrev GoString := List Nat

/-- The bytes of a string constant (Go source constants are UTF-8). -/
def str (s : String) : GoString := s.toUTF8.data.toList.map (fun b => b.val.val)

/-- All elements are byte values. -/
def IsBytes (s : GoString) : Prop := ∀ b ∈ s, b < 256

instance (s : GoString) : Decidable (IsBytes s) := by
  unfold IsBytes; infer_instance

/-- Go `strings.HasPrefix(s, p)`. -/
def HasPrefix (s p : GoString) : Bool := p.isPrefixOf s

/-- Go `strings.TrimPrefix(s, p)`: `s` without the leading `p`, or `s` itself
when `s` does not start with `p`. -/
def TrimPrefix (s p : GoString) : GoString :=
  if HasPrefix s p then s.drop p.length else s

/-- Go slice expression `s[lo:hi]` on a string; `none` is the run-time panic
"slice bounds out of range". -/
def slice (s : GoString) (lo hi : Nat) : Option GoString :=
  if lo ≤ hi ∧ hi ≤ s.length then some ((s.drop lo).take (hi - lo)) else none

/-- The verb `%c` of `fmt.Sprintf` applied to a byte `b`: the UTF-8 encoding of
the code point `U+00b` (one byte below `0x80`, two bytes from `0x80` on). -/
def fmtC (b : Nat) : GoString :=
  if b < 0x80 then [b] else [0xC0 + b / 64, 0x80 + b % 64]

deriving instance DecidableEq for Except

/-! ## `strconv.ParseUint` -/

/-- The two error kinds of `strconv` (`ErrSyntax`, `ErrRange`). -/
inductive NumError where
  | invalid
  | range
  deriving DecidableEq, Repr

/-- The helper `lower(c) = c | ('x' - 'X')` of `strconv`: sets bit 5 of the byte. -/
def lower (c : Nat) : Nat := if c / 32 % 2 = 0 then c + 32 else c

/-- Digit value of one byte in `strconv.ParseUint`: `'0'..'9'` are `0..9`, a
letter (either case) is `10..35`; `none` for every other byte. -/
def digitVal (c : Nat) : Option Nat :=
  if 48 ≤ c ∧ c ≤ 57 then some (c - 48)
  else if 97 ≤ lower c ∧ lower c ≤ 122 then some (lower c - 97 + 10)
  else none

/-- The digit loop of `strconv.ParseUint`, `n` being the accumulator (a
`uint64`). -/
def parseUintLoop (base cutoff maxVal : Nat) : GoString → Nat → Except NumError Nat
  | [], n => .ok n
  | c :: cs, n =>
    match digitVal c with
    | none => .error .invalid
    | some d =>
      if d ≥ base then .error .invalid
      else if n ≥ cutoff then .error .range
      else
        let n0 := n * base
        let n1 := (n0 + d) % 2 ^ 64
        if n1 < n0 ∨ n1 > maxVal then .error .range
        else parseUintLoop base cutoff maxVal cs n1

/-- Go `strconv.ParseUint(s, base, bitSize)` for an explicit base `2..36` (the
program calls it with base 16 and, through `Atoi`, base 10; the prefix-sniffing
base 0 is not modelled and is reported as an error). -/
def ParseUint (s : GoString) (base bitSize : Nat) : Except NumError Nat :=
  if s = [] then .error .invalid
  else if ¬ (2 ≤ base ∧ base ≤ 36) then .error .invalid
  else if bitSize > 64 then .error .invalid
  else
    let bitSize := if bitSize = 0 then 64 else bitSize
    let cutoff := (2 ^ 64 - 1) / base + 1
    let maxVal := 2 ^ bitSize - 1
    parseUintLoop base cutoff maxVal s 0

/-- Go conversion `int(u)` of a `uint64` on a 64-bit platform. -/
def int (u : Nat) : Int := if u < 2 ^ 63 then (u : Int) else (u : Int) - ((2 ^ 64 : Nat) : Int)

/-! ## `hexToRGB` -/

/-- Result of a Go function returning `(value, error)` whose body may panic on
a slice expression. -/
inductive Outcome (α : Type) where
  | ok (a : α)
  | error (msg : String)
  | outOfRange
  deriving DecidableEq, Repr

/-- The error texts of `hexToRGB`. -/
def errFormat : String := "invalid color format, expected 3 or 6 characters"
def errRed : String := "invalid red component"
def errGreen : String := "invalid green component"
def errBlue : String := "invalid blue component"

/-- The `switch len(hex)` of `hexToRGB`: a 3-byte token is expanded with
`fmt.Sprintf("%c%c%c%c%c%c", hex[0], hex[0], hex[1], hex[1], hex[2], hex[2])`, a
6-byte token is kept, any other length is the format error (`none`). -/
def expandHex (hex : GoString) : Option GoString :=
  match hex with
  | [h0, h1, h2] => some (fmtC h0 ++ fmtC h0 ++ fmtC h1 ++ fmtC h1 ++ fmtC h2 ++ fmtC h2)
  | [_, _, _, _, _, _] => some hex
  | _ => none

/-- One `strconv.ParseUint(hex[lo:hi], 16, 8)` step of `hexToRGB` followed by
the continuation `k`; `msg` is the error returned when the pair does not parse. -/
def parsePair (hex : GoString) (lo hi : Nat) (msg : String)
    (k : Nat → Outcome (Int × Int × Int)) : Outcome (Int × Int × Int) :=
  match slice hex lo hi with
  | none => .outOfRange
  | some p =>
    match ParseUint p 16 8 with
    | .error _ => .error msg
    | .ok v => k v

/-- The function `hexToRGB` of `main.go`. -/
def hexToRGB (hex : GoString) : Outcome (Int × Int × Int) :=
  let hex := TrimPrefix hex (str "#")
  match expandHex hex with
  | none => .error errFormat
  | some hex =>
    parsePair hex 0 2 errRed fun r =>
    parsePair hex 2 4 errGreen fun g =>
    parsePair hex 4 6 errBlue fun b =>
    .ok (int r, int g, int b)

example : hexToRGB (str "000000") = .ok (0, 0, 0) := by decide
example : hexToRGB (str "FFFFFF") = .ok (255, 255, 255) := by decide
example : hexToRGB (str "#abc") = .ok (170, 187, 204) := by decide
example : hexToRGB (str "zz0000") = .error errRed := by decide
example : hexToRGB (str "#12345") = .error errFormat := by decide
example : hexToRGB [0xC3, 0xA9, 0x61] = .error errRed := by decide

/-- The three `ParseUint` steps of `hexToRGB` on the expanded token. -/
def parseComponents (hex : GoString) : Outcome (Int × Int × Int) :=
  parsePair hex 0 2 errRed fun r =>
  parsePair hex 2 4 errGreen fun g =>
  parsePair hex 4 6 errBlue fun b =>
  .ok (int r, int g, int b)

/-! ## `strconv.Atoi` -/

/-- Go conversion `int64(u)` of a `uint64`. -/
def int64 (u : Nat) : Int := if u < 2 ^ 63 then (u : Int) else (u : Int) - ((2 ^ 64 : Nat) : Int)

/-- A signed 64-bit result of an arithmetic operation (two's complement wrap). -/
def wrap64 (i : Int) : Int :=
  (i + ((2 ^ 63 : Nat) : Int)) % ((2 ^ 64 : Nat) : Int) - ((2 ^ 63 : Nat) : Int)

/-- Go `strconv.ParseInt(s, base, 0)` on a 64-bit platform.  Only the error is
kept of a failing call (Go also returns a clamped value, which the program
never reads). -/
def ParseInt (s : GoString) (base : Nat) : Except NumError Int :=
  match s with
  | [] => .error .invalid
  | c :: cs =>
    let neg := decide (c = 45)
    let s1 := if c = 43 ∨ c = 45 then cs else s
    match ParseUint s1 base 0 with
    | .error e => .error e
    | .ok un =>
      let cutoff := 2 ^ 63
      if ¬ neg ∧ un ≥ cutoff then .error .range
      else if neg ∧ un > cutoff then .error .range
      else
        let n := int64 un
        .ok (if neg then wrap64 (-n) else n)

/-- The digit loop of the fast path of `strconv.Atoi`: `ch -= '0'` is byte
arithmetic (modulo 256), `n` is an `int`. -/
def atoiLoop : GoString → Int → Except NumError Int
  | [], n => .ok n
  | ch :: rest, n =>
    let ch := (ch + 256 - 48) % 256
    if ch > 9 then .error .invalid
    else atoiLoop rest (wrap64 (wrap64 (n * 10) + (ch : Int)))

/-- Go `strconv.Atoi(s)` on a 64-bit platform: the fast path for fewer than 19
bytes, `ParseInt(s, 10, 0)` otherwise. -/
def Atoi (s : GoString) : Except NumError Int :=
  match s with
  | [] => ParseInt s 10
  | c :: cs =>
    if s.length < 19 then
      let s1 := if c = 45 ∨ c = 43 then cs else s
      if (c = 45 ∨ c = 43) ∧ s1.length < 1 then .error .invalid
      else
        match atoiLoop s1 0 with
        | .error e => .error e
        | .ok n => .ok (if c = 45 then wrap64 (-n) else n)
    else ParseInt s 10

/-! ## `strings.ToUpper` -/

/-- Upper-case of one ASCII byte: `c -= 'a' - 'A'` for `'a' <= c <= 'z'`. -/
def upperASCII (c : Nat) : Nat := if 97 ≤ c ∧ c ≤ 122 then c - 32 else c

/-- Go `strings.ToUpper(s)`.  A string of ASCII bytes only is mapped byte by
byte (and returned as is when it has no lower-case letter).  A string with a
byte `>= 0x80` goes through `strings.Map(unicode.ToUpper, s)`, which reads the
Unicode case tables; that function is the parameter `mapUpper`. -/
def ToUpper (mapUpper : GoString → GoString) (s : GoString) : GoString :=
  let isASCII := s.all fun c => decide (c < 0x80)
  let hasLower := s.any fun c => decide (97 ≤ c ∧ c ≤ 122)
  if isASCII then
    if ¬ hasLower then s else s.map upperASCII
  else mapUpper s

/-! ## `base64.URLEncoding` -/

/-- The alphabet of `base64.URLEncoding`. -/
def encodeURL : GoString :=
  str "ABCDEFGHIJKLMNOPQRSTUVWXYZabcdefghijklmnopqrstuvwxyz0123456789-_"

/-- The table `decodeMap` of the encoding: the index of a byte in the alphabet,
`0xFF` for a byte outside it. -/
def decodeMap (c : Nat) : Nat :=
  let i := encodeURL.indexOf c
  if i < 64 then i else 0xFF

/-- The "skip over newlines" loop of `decodeQuantum`. -/
def skipNewlines : GoString → GoString
  | [] => []
  | c :: cs => if c = 10 ∨ c = 13 then skipNewlines cs else c :: cs

/-- The end of `decodeQuantum`: the `dlen - 1` bytes of a quantum whose 6-bit
values are `dbuf` (missing entries are zero):
`val = dbuf[0]<<18 | dbuf[1]<<12 | dbuf[2]<<6 | dbuf[3]`, then
`byte(val>>16), byte(val>>8), byte(val)`.  The values are below 64, so the
shifted fields do not overlap and `|` is a sum. -/
def quantumBytes (dbuf : List Nat) (dlen : Nat) : List Nat :=
  let val := dbuf.getD 0 0 * 2 ^ 18 + dbuf.getD 1 0 * 2 ^ 12 + dbuf.getD 2 0 * 2 ^ 6
    + dbuf.getD 3 0
  [val / 2 ^ 16 % 256, val / 2 ^ 8 % 256, val % 256].take (dlen - 1)

/-- The padding branch of `decodeQuantum`: a `=` was read after `dbuf.length`
values.  With two values a second `=` must follow (newlines skipped); after the
padding only newlines may follow.  `acc` is what was decoded before. -/
def decodePadding (cs : GoString) (dbuf acc : List Nat) : Except Unit (List Nat) :=
  match dbuf.length with
  | 0 => .error ()
  | 1 => .error ()
  | 2 =>
    match skipNewlines cs with
    | [] => .error ()
    | d :: ds =>
      if d ≠ 61 then .error ()
      else if skipNewlines ds ≠ [] then .error ()
      else .ok (acc ++ quantumBytes dbuf 2)
  | _ =>
    if skipNewlines cs ≠ [] then .error ()
    else .ok (acc ++ quantumBytes dbuf 3)

/-- The loop of `Encoding.Decode` with `decodeQuantum` inlined, for a padded,
non-strict encoding: `src` is the input still to read, `dbuf` the 6-bit values
of the quantum in progress (`j = dbuf.length < 4`), `acc` the bytes decoded so
far.  `\r` and `\n` are ignored; the input may end only between quanta; any
other byte outside the alphabet than `=` is corrupt input.  (The 8- and 4-byte
fast paths of `Decode` compute the same bytes as `decodeQuantum` on quanta of
alphabet bytes.)  The error is `CorruptInputError`. -/
def decodeFrom : GoString → List Nat → List Nat → Except Unit (List Nat)
  | [], dbuf, acc => if dbuf = [] then .ok acc else .error ()
  | c :: cs, dbuf, acc =>
    if decodeMap c ≠ 0xFF then
      if dbuf.length = 3 then decodeFrom cs [] (acc ++ quantumBytes (dbuf ++ [decodeMap c]) 4)
      else decodeFrom cs (dbuf ++ [decodeMap c]) acc
    else if c = 10 ∨ c = 13 then decodeFrom cs dbuf acc
    else if c ≠ 61 then .error ()
    else decodePadding cs dbuf acc

/-- Go `base64.URLEncoding.DecodeString(s)`. -/
def DecodeString (s : GoString) : Except Unit (List Nat) := decodeFrom s [] []

/-- The function `decodeBase64URL` of `main.go`. -/
def decodeBase64URL (s : GoString) : Except Unit GoString :=
  match DecodeString s with
  | .error e => .error e
  | .ok data => .ok data

/-! ## `generateQRHandler` -/

/-- The recovery levels of `go-qrcode`. -/
inductive RecoveryLevel where
  | Low
  | Medium
  | High
  | Highest
  deriving DecidableEq, Repr

/-- The colours the handler assigns: `color.White` is `color.Gray16{0xffff}`,
the foreground a `color.RGBA`. -/
inductive Color where
  | gray16 (y : Nat)
  | rgba (r g b a : Nat)
  deriving DecidableEq, Repr

/-- The value `color.White`. -/
def Color.White : Color := .gray16 0xffff

/-- Go conversion `uint8(i)` of an `int`. -/
def uint8 (i : Int) : Nat := (i % 256).toNat

/-- What the handler writes to the client. -/
inductive Response where
  /-- `c.JSON(status, gin.H{"error": msg})` -/
  | json (status : Nat) (msg : String)
  /-- `c.Data(status, contentType, body)` -/
  | data (status : Nat) (contentType : String) (body : List Nat)
  /-- `c.String(status, body)` -/
  | text (status : Nat) (body : String)
  /-- the handler panicked (gin's recovery middleware answers) -/
  | panicked
  deriving DecidableEq, Repr

/-- The query string of a request: for each key the first value, `none` when
the key is absent. -/
structure Query where
  url : Option GoString
  level : Option GoString
  size : Option GoString
  color : Option GoString

/-- The gin accessor `c.Query(key)`: the value, or `""` when the key is absent. -/
def getQuery (v : Option GoString) : GoString := v.getD []

/-- The gin accessor `c.DefaultQuery(key, def)`: the value, or `def` when the
key is absent. -/
def DefaultQuery (v : Option GoString) (d : GoString) : GoString := v.getD d

/-- What the program takes from outside `main.go`: the Unicode branch of
`strings.ToUpper`, and the `go-qrcode` library (`qrcode.New`, and `qr.Write`
with the two colours set on the code before the call). -/
structure Env (QR : Type) where
  mapUpper : GoString → GoString
  new : GoString → RecoveryLevel → Except String QR
  write : QR → Color → Color → Int → Except String (List Nat)

/-- The `switch strings.ToUpper(level)` of `generateQRHandler`, starting from
`qrLevel := qrcode.Low`. -/
def qrLevel {QR : Type} (env : Env QR) (level : GoString) : RecoveryLevel :=
  let u := ToUpper env.mapUpper level
  if u = str "M" then .Medium
  else if u = str "Q" then .High
  else if u = str "H" then .Highest
  else .Low

/-- The function `generateQRHandler` of `main.go`. -/
def generateQRHandler {QR : Type} (env : Env QR) (q : Query) : Response :=
  let url := getQuery q.url
  let level := DefaultQuery q.level (str "L")
  let sizeStr := DefaultQuery q.size (str "256")
  let colorStr := DefaultQuery q.color (str "000000")
  if url = [] then .json 400 "url parameter is required"
  else
    match decodeBase64URL url with
    | .error _ => .json 400 "invalid url parameter"
    | .ok url =>
      match Atoi sizeStr with
      | .error _ => .json 400 "invalid size parameter (max 2048)"
      | .ok size =>
        if size ≤ 0 ∨ size > 2048 then .json 400 "invalid size parameter (max 2048)"
        else
          match hexToRGB colorStr with
          | .outOfRange => .panicked
          | .error msg => .json 400 msg
          | .ok (r, g, b) =>
            match env.new url (qrLevel env level) with
            | .error _ => .json 500 "failed to generate QR code"
            | .ok qr =>
              match env.write qr Color.White (.rgba (uint8 r) (uint8 g) (uint8 b) 255) size with
              | .error _ => .json 500 "failed to encode QR code"
              | .ok png => .data 200 "image/png" png

example : Atoi (str "2048") = .ok 2048 := by decide
example : Atoi (str "+007") = .ok 7 := by decide
example : Atoi (str "-12") = .ok (-12) := by decide
example : Atoi (str "12a") = .error .invalid := by decide
example : Atoi (str "99999999999999999999") = .error .range := by decide
example : decodeBase64URL (str "aGk_") = .ok (str "hi?") := by decide
example : decodeBase64URL (str "aA==") = .ok (str "h") := by decide
example : decodeBase64URL (str "!!!") = .error () := by decide
example : decodeBase64URL (str "\n") = .ok [] := by decide

/-! ## Static assets -/

/-- Go `strings.HasSuffix(s, suffix)`. -/
def HasSuffix (s suffix : GoString) : Bool := suffix.isSuffixOf s

/-- The function `getContentType` of `main.go`. -/
def getContentType (filename : GoString) : String :=
  if HasSuffix filename (str ".css") then "text/css; charset=utf-8"
  else if HasSuffix filename (str ".js") then "application/javascript; charset=utf-8"
  else if HasSuffix filename (str ".png") then "image/png"
  else if HasSuffix filename (str ".jpg") ∨ HasSuffix filename (str ".jpeg") then "image/jpeg"
  else if HasSuffix filename (str ".html") then "text/html; charset=utf-8"
  else "application/octet-stream"

/-- The variable `staticCache` of `main.go`, a Go `map[string][]byte`: the
bytes stored under a key, `none` for a key that is not in the map. -/
abbrev StaticCache := GoString → Option (List Nat)

/-- The handler of the route `/static/:file` in `main`, `fileName` being
`c.Param("file")`.  The cache is a global of the program: the handler takes it
and returns it with the response. -/
def staticFileHandler (staticCache : StaticCache) (fileName : GoString) :
    Response × StaticCache :=
  match staticCache fileName with
  | some data => (.data 200 (getContentType fileName) data, staticCache)
  | none => (.text 404 "File not found", staticCache)

example : getContentType (str "app.js") = "application/javascript; charset=utf-8" := by decide
example : getContentType (str "logo.jpeg") = "image/jpeg" := by decide
example : getContentType (str "README") = "application/octet-stream" := by decide

/-! ### Vocabulary of the specification for colour tokens -/

/-- A hexadecimal digit: `0-9`, `a-f` or `A-F`. -/
def isHexDigit (c : Nat) : Prop :=
  (48 ≤ c ∧ c ≤ 57) ∨ (97 ≤ c ∧ c ≤ 102) ∨ (65 ≤ c ∧ c ≤ 70)

instance : DecidablePred isHexDigit := fun c => by
  unfold isHexDigit; infer_instance

/-- The value `0..15` of a hexadecimal digit. -/
def hexValue (c : Nat) : Nat :=
  if c ≤ 57 then c - 48 else if c ≤ 70 then c - 55 else c - 87

/-- A pair of bytes that is two hexadecimal digits. -/
def pairOK (a b : Nat) : Prop := isHexDigit a ∧ isHexDigit b

instance (a b : Nat) : Decidable (pairOK a b) := by
  unfold pairOK; infer_instance

/-- The token with one leading `#` removed, when it has one. -/
def dropLeadingHash (tok : GoString) : GoString :=
  match tok with
  | 35 :: rest => rest
  | _ => tok

/-- The token starts with `#`. -/
def startsWithHash (tok : GoString) : Prop := tok.head? = some 35

instance (tok : GoString) : Decidable (startsWithHash tok) := by
  unfold startsWithHash; infer_instance

/-! ### Vocabulary of the specification for the size parameter -/

/-- A decimal digit `0-9`. -/
def isDigit (c : Nat) : Prop := 48 ≤ c ∧ c ≤ 57

instance : DecidablePred isDigit := fun c => by
  unfold isDigit; infer_instance

/-- The number written by the decimal digits `ds` after the digits already
read, whose value is `n`. -/
def decimalFrom (n : Nat) : GoString → Nat
  | [] => n
  | c :: cs => decimalFrom (n * 10 + (c - 48)) cs

/-- The number written by a string of decimal digits. -/
def decimalValue (ds : GoString) : Nat := decimalFrom 0 ds

/-- A non-empty string of decimal digits. -/
def allDigits (ds : GoString) : Prop := ds ≠ [] ∧ ∀ c ∈ ds, isDigit c

instance (ds : GoString) : Decidable (allDigits ds) := by
  unfold allDigits; infer_instance

/-- A base-10 integer: an optional sign `+` or `-` followed by one or more
decimal digits; the result is its value, `none` when the string is not of
that form. -/
def parseDecimal (s : GoString) : Option Int :=
  match s with
  | [] => none
  | c :: cs =>
    if c = 45 then (if allDigits cs then some (-(decimalValue cs : Int)) else none)
    else if c = 43 then (if allDigits cs then some (decimalValue cs : Int) else none)
    else if allDigits s then some (decimalValue s : Int) else none

/-- The integer fits a Go `int` (64 bits). -/
def inInt64 (n : Int) : Prop := -((2 ^ 63 : Nat) : Int) ≤ n ∧ n < ((2 ^ 63 : Nat) : Int)

instance (n : Int) : Decidable (inInt64 n) := by
  unfold inInt64; infer_instance

/-- The base-10 integer written by `s`, when `s` is one and it fits an `int`. -/
def decimalInt (s : GoString) : Option Int :=
  match parseDecimal s with
  | some n => if inInt64 n then some n else none
  | none => none

/-- The size string is a base-10 integer `n` with `1 <= n <= 2048`. -/
def sizeInRange (s : GoString) : Prop :=
  match parseDecimal s with
  | some n => 1 ≤ n ∧ n ≤ 2048
  | none => False

instance (s : GoString) : Decidable (sizeInRange s) := by
  unfold sizeInRange
  cases parseDecimal s <;> infer_instance

/-- The error text of the size check. -/
def errSize : String := "invalid size parameter (max 2048)"

/-- The error text of a url parameter that does not decode. -/
def errURL : String := "invalid url parameter"

/-- An encoder to run the handler on concrete requests: it accepts every text
at every level and writes the bytes of the text as the image. -/
def echoEncoder : Env GoString where
  mapUpper := fun s => s
  new := fun text _ => .ok text
  write := fun qr _ _ _ => .ok qr

/-! ### Vocabulary of the specification for the error-tolerance level -/

/-- The level table of the specification, compared case-insensitively: `L` is
Low, `M` Medium, `Q` Quartile (`qrcode.High`), `H` Highest, anything else Low. -/
def levelOfLetter (level : GoString) : RecoveryLevel :=
  if level = str "L" ∨ level = str "l" then .Low
  else if level = str "M" ∨ level = str "m" then .Medium
  else if level = str "Q" ∨ level = str "q" then .High
  else if level = str "H" ∨ level = str "h" then .Highest
  else .Low

/-- The fact about the Unicode case tables the level switch relies on: a string
with a non-ASCII byte never upper-cases to one of the ASCII letters `M`, `Q`,
`H` (the only non-ASCII runes whose upper case is ASCII map to `I` and `S`). -/
def UpperSound (mapUpper : GoString → GoString) : Prop :=
  ∀ s : GoString, (∃ c ∈ s, 128 ≤ c) →
    mapUpper s ≠ str "M" ∧ mapUpper s ≠ str "Q" ∧ mapUpper s ≠ str "H"

/-! ### Vocabulary of the specification for the url parameter -/

/-- A byte of the URL-safe base64 alphabet: `A-Z`, `a-z`, `0-9`, `-`, `_`. -/
def isAlpha (c : Nat) : Prop :=
  (65 ≤ c ∧ c ≤ 90) ∨ (97 ≤ c ∧ c ≤ 122) ∨ (48 ≤ c ∧ c ≤ 57) ∨ c = 45 ∨ c = 95

instance : DecidablePred isAlpha := fun c => by
  unfold isAlpha; infer_instance

/-- The character of the URL-safe alphabet for a 6-bit value. -/
def encodeChar (v : Nat) : Nat := encodeURL.getD v 0

/-- URL-safe base64 with standard `=` padding (RFC 4648, section 5): three
bytes give four characters; a final group of two bytes gives three characters
and `=`, a final single byte two characters and `==`. -/
def encodeBase64URL : List Nat → GoString
  | b0 :: b1 :: b2 :: rest =>
    encodeChar (b0 / 4) :: encodeChar (b0 % 4 * 16 + b1 / 16)
      :: encodeChar (b1 % 16 * 4 + b2 / 64) :: encodeChar (b2 % 64) :: encodeBase64URL rest
  | [b0, b1] =>
    [encodeChar (b0 / 4), encodeChar (b0 % 4 * 16 + b1 / 16), encodeChar (b1 % 16 * 4), 61]
  | [b0] => [encodeChar (b0 / 4), encodeChar (b0 % 4 * 16), 61, 61]
  | [] => []

/-- A byte other than CR and LF. -/
def notNewline (c : Nat) : Prop := ¬ (c = 10 ∨ c = 13)

instance : DecidablePred notNewline := fun c => by
  unfold notNewline; infer_instance

/-- The string without its CR and LF bytes. -/
def dropNewlines (s : GoString) : GoString := s.filter fun c => decide (notNewline c)

/-- A byte that may not occur in padded URL-safe base64 text: outside the
alphabet, not the padding character `=`, not CR or LF. -/
def isForeign (c : Nat) : Prop := ¬ (isAlpha c ∨ c = 61 ∨ c = 10 ∨ c = 13)

instance : DecidablePred isForeign := fun c => by
  unfold isForeign; infer_instance

/-- Correctly padded base64 text (line breaks already removed): groups of four
alphabet characters, the last group possibly `xx==` or `xxx=`. -/
def wellPadded : GoString → Bool
  | [] => true
  | a :: b :: c :: d :: rest =>
    decide (isAlpha a) && decide (isAlpha b) &&
      ((decide (isAlpha c) && decide (isAlpha d) && wellPadded rest)
        || (decide (c = 61) && decide (d = 61) && rest.isEmpty)
        || (decide (isAlpha c) && decide (d = 61) && rest.isEmpty))
  | _ => false

example : encodeBase64URL (str "hi?") = str "aGk_" := by decide
example : encodeBase64URL (str "h") = str "aA==" := by decide
example : wellPadded (str "aGk_aA==") = true := by decide
example : wellPadded (str "aA=") = false := by decide

/-! ### Vocabulary of the specification for the request as a whole -/

/-- The error text of a missing url parameter. -/
def errRequired : String := "url parameter is required"

/-- The request passes the four validation steps, with the decoded text, the
size and the colour triple they produce: the url parameter is not empty and
decodes to `text`, the size string is the base-10 integer `size` with
`1 <= size <= 2048`, and `hexToRGB` accepts the colour string with `rgb`. -/
def validated (q : Query) (text : GoString) (size : Int) (rgb : Int × Int × Int) : Prop :=
  getQuery q.url ≠ [] ∧
  decodeBase64URL (getQuery q.url) = .ok text ∧
  parseDecimal (DefaultQuery q.size (str "256")) = some size ∧ 1 ≤ size ∧ size ≤ 2048 ∧
  hexToRGB (DefaultQuery q.color (str "000000")) = .ok rgb

/-- The request passes validation. -/
def validationPasses (q : Query) : Prop := ∃ text size rgb, validated q text size rgb

/-- What the matrix encoder and then the PNG writer return for a validated
request: the error of the first of the two that fails, or the bytes written. -/
def render {QR : Type} (env : Env QR) (text level : GoString) (size : Int)
    (rgb : Int × Int × Int) : Except String (List Nat) :=
  match env.new text (qrLevel env level) with
  | .error e => .error e
  | .ok qr => env.write qr Color.White (.rgba (uint8 rgb.1) (uint8 rgb.2.1) (uint8 rgb.2.2) 255) size

/-- A cache with one asset, to run the static handler on concrete requests. -/
def sampleCache : StaticCache := fun key =>
  if key = str "app.js" then some (str "let a = 1") else none

/-! ## Lemmas on `hexToRGB` -/

theorem str_hash : str "#" = [35] := by decide

set_option maxRecDepth 100000 in
/-- On bytes, `lower` is the bitwise or with `0x20`. -/
theorem lower_eq_lor : ∀ c < 256, lower c = c ||| 32 := by
  decide

theorem TrimPrefix_hash_cons (s : GoString) : TrimPrefix (35 :: s) (str "#") = s := by
  simp [TrimPrefix, HasPrefix, str_hash]

theorem TrimPrefix_hash_of_not (s : GoString) (h : ¬ startsWithHash s) :
    TrimPrefix s (str "#") = s := by
  cases s with
  | nil => simp [TrimPrefix, HasPrefix, str_hash]
  | cons a t =>
    have : a ≠ 35 := by simpa [startsWithHash] using h
    simp [TrimPrefix, HasPrefix, str_hash, Ne.symm this]

theorem TrimPrefix_hash_eq (s : GoString) : TrimPrefix s (str "#") = dropLeadingHash s := by
  by_cases h : startsWithHash s
  · cases s with
    | nil => simp [startsWithHash] at h
    | cons a t =>
      have : a = 35 := by simpa [startsWithHash] using h
      subst this
      simp [TrimPrefix_hash_cons, dropLeadingHash]
  · rw [TrimPrefix_hash_of_not s h]
    cases s with
    | nil => rfl
    | cons a t =>
      have : a ≠ 35 := by simpa [startsWithHash] using h
      unfold dropLeadingHash
      split
      · rename_i heq; simp at heq; omega
      · rfl

theorem expandHex_eq_none_iff (h : GoString) :
    expandHex h = none ↔ h.length ≠ 3 ∧ h.length ≠ 6 := by
  unfold expandHex
  split
  · simp
  · simp
  · rename_i h3 h6
    simp only [true_iff]
    constructor
    · intro hl
      match h, hl with
      | [a, b, c], _ => exact h3 a b c rfl
    · intro hl
      match h, hl with
      | [a, b, c, d, e, f], _ => exact h6 a b c d e f rfl

theorem digitVal_hex {c : Nat} (h : isHexDigit c) :
    digitVal c = some (hexValue c) ∧ hexValue c < 16 := by
  unfold isHexDigit at h
  unfold digitVal hexValue lower
  constructor
  · split_ifs <;> first | rfl | omega | (congr 1; omega)
  · split_ifs <;> omega

theorem digitVal_not_hex {c : Nat} (h : ¬ isHexDigit c) :
    digitVal c = none ∨ ∃ d, digitVal c = some d ∧ 16 ≤ d := by
  unfold isHexDigit at h
  unfold digitVal lower
  by_cases h1 : 48 ≤ c ∧ c ≤ 57
  · omega
  · rw [if_neg h1]
    by_cases h2 : c / 32 % 2 = 0
    · simp only [h2, if_true]
      by_cases h3 : 97 ≤ c + 32 ∧ c + 32 ≤ 122
      · rw [if_pos h3]; right; exact ⟨c + 32 - 97 + 10, rfl, by omega⟩
      · rw [if_neg h3]; left; rfl
    · simp only [h2, if_false]
      by_cases h3 : 97 ≤ c ∧ c ≤ 122
      · rw [if_pos h3]; right; exact ⟨c - 97 + 10, rfl, by omega⟩
      · rw [if_neg h3]; left; rfl

/-- One iteration of the digit loop with the parameters of
`ParseUint(_, 16, 8)`, on a digit that keeps the value within 8 bits. -/
theorem parseUintLoop16_step (c : Nat) (cs : GoString) (n d : Nat)
    (hd : digitVal c = some d) (hd16 : d < 16) (hn : n * 16 + d ≤ 255) :
    parseUintLoop 16 ((2 ^ 64 - 1) / 16 + 1) (2 ^ 8 - 1) (c :: cs) n
      = parseUintLoop 16 ((2 ^ 64 - 1) / 16 + 1) (2 ^ 8 - 1) cs (n * 16 + d) := by
  have e : (n * 16 + d) % 2 ^ 64 = n * 16 + d := Nat.mod_eq_of_lt (by omega)
  simp only [parseUintLoop, hd, e]
  rw [if_neg (by omega), if_neg (by norm_num; omega), if_neg (by norm_num; omega)]

theorem parseUintLoop_not_digit (base cutoff maxVal c : Nat) (cs : GoString) (n : Nat)
    (hd : digitVal c = none ∨ ∃ d, digitVal c = some d ∧ base ≤ d) :
    parseUintLoop base cutoff maxVal (c :: cs) n = .error .invalid := by
  rcases hd with hd | ⟨d, hd, hb⟩
  · simp only [parseUintLoop, hd]
  · simp only [parseUintLoop, hd]
    rw [if_pos hb]

/-- What `strconv.ParseUint(p, 16, 8)` returns on a two-byte string. -/
theorem ParseUint_pair (a b : Nat) :
    ParseUint [a, b] 16 8 =
      if pairOK a b then .ok (16 * hexValue a + hexValue b) else .error .invalid := by
  have h0 : ParseUint [a, b] 16 8
      = parseUintLoop 16 ((2 ^ 64 - 1) / 16 + 1) (2 ^ 8 - 1) [a, b] 0 := by
    simp [ParseUint]
  rw [h0]
  by_cases ha : isHexDigit a
  · obtain ⟨ha1, ha2⟩ := digitVal_hex ha
    rw [parseUintLoop16_step a [b] 0 _ ha1 ha2 (by omega)]
    by_cases hb : isHexDigit b
    · obtain ⟨hb1, hb2⟩ := digitVal_hex hb
      rw [parseUintLoop16_step b [] _ _ hb1 hb2 (by omega), if_pos ⟨ha, hb⟩]
      simp only [parseUintLoop]
      congr 1; omega
    · rw [parseUintLoop_not_digit _ _ _ _ _ _ (digitVal_not_hex hb), if_neg (fun h => hb h.2)]
  · rw [parseUintLoop_not_digit _ _ _ _ _ _ (digitVal_not_hex ha), if_neg (fun h => ha h.1)]

theorem hexToRGB_eq (tok : GoString) :
    hexToRGB tok =
      match expandHex (dropLeadingHash tok) with
      | none => .error errFormat
      | some hex => parseComponents hex := by
  simp only [hexToRGB, TrimPrefix_hash_eq, parseComponents]

theorem int_byte {a b : Nat} (ha : isHexDigit a) (hb : isHexDigit b) :
    int (16 * hexValue a + hexValue b) = ((16 * hexValue a + hexValue b : Nat) : Int) := by
  have h1 := (digitVal_hex ha).2
  have h2 := (digitVal_hex hb).2
  unfold int
  rw [if_pos (by omega)]

/-- The body of `hexToRGB` after the length switch, on a token of six bytes. -/
theorem parseComponents_six (c0 c1 c2 c3 c4 c5 : Nat) :
    parseComponents [c0, c1, c2, c3, c4, c5] =
      if pairOK c0 c1 then
        if pairOK c2 c3 then
          if pairOK c4 c5 then
            .ok (int (16 * hexValue c0 + hexValue c1), int (16 * hexValue c2 + hexValue c3),
              int (16 * hexValue c4 + hexValue c5))
          else .error errBlue
        else .error errGreen
      else .error errRed := by
  have s1 : slice [c0, c1, c2, c3, c4, c5] 0 2 = some [c0, c1] := by simp [slice]
  have s2 : slice [c0, c1, c2, c3, c4, c5] 2 4 = some [c2, c3] := by simp [slice]
  have s3 : slice [c0, c1, c2, c3, c4, c5] 4 6 = some [c4, c5] := by simp [slice]
  simp only [parseComponents, parsePair, s1, s2, s3, ParseUint_pair]
  by_cases h1 : pairOK c0 c1
  · by_cases h2 : pairOK c2 c3
    · by_cases h3 : pairOK c4 c5
      · simp only [h1, h2, h3, if_true]
      · simp only [h1, h2, h3, if_true, if_false]
    · simp only [h1, h2, if_true, if_false]
  · simp only [h1, if_false]

theorem dropLeadingHash_of_not {tok : GoString} (h : ¬ startsWithHash tok) :
    dropLeadingHash tok = tok := by
  rw [← TrimPrefix_hash_eq, TrimPrefix_hash_of_not tok h]

/-- A `parsePair` step never produces an error text other than its own or one
of its continuation. -/
theorem parsePair_error {hex : GoString} {lo hi : Nat} {msg m : String}
    {k : Nat → Outcome (Int × Int × Int)}
    (h : parsePair hex lo hi msg k = .error m) : msg = m ∨ ∃ v, k v = .error m := by
  unfold parsePair at h
  split at h
  · cases h
  · split at h
    · left; injection h
    · right; exact ⟨_, h⟩

theorem parseComponents_ne_format (hex : GoString) :
    parseComponents hex ≠ .error errFormat := by
  intro h
  rcases parsePair_error h with h | ⟨_, h⟩
  · revert h; decide
  · rcases parsePair_error h with h | ⟨_, h⟩
    · revert h; decide
    · rcases parsePair_error h with h | ⟨_, h⟩
      · revert h; decide
      · cases h

/-- The length error is returned exactly when the `switch len(hex)` takes its
default branch. -/
theorem hexToRGB_format_iff (tok : GoString) :
    hexToRGB tok = .error errFormat ↔
      ((dropLeadingHash tok).length ≠ 3 ∧ (dropLeadingHash tok).length ≠ 6) := by
  rw [hexToRGB_eq, ← expandHex_eq_none_iff]
  cases he : expandHex (dropLeadingHash tok) with
  | none => simp
  | some hex => simpa using parseComponents_ne_format hex

/-! ## Colour tokens: the claims -/

/-- C1, as stated, fails: the 4-character token `#abc` does not fail with the
length error (it resolves to a colour), and the 3-character token `#ab` does
fail with it.  The length is moreover counted in bytes: the one-character token
`€` has three bytes and fails with the red-component error, not the length
error. -/
theorem hexToRGB_length_counterexample :
    (str "#abc").length = 4 ∧ hexToRGB (str "#abc") = .ok (170, 187, 204) ∧
    (str "#ab").length = 3 ∧ hexToRGB (str "#ab") = .error errFormat ∧
    String.length "€" = 1 ∧ (str "€").length = 3 ∧ hexToRGB (str "€") = .error errRed := by
  decide

/-- C1 (amended): `hexToRGB` fails with the length error exactly when the token,
after one optional leading `#` is removed, has neither 3 nor 6 bytes; in
particular every 4-byte token that does not begin with `#` fails with this error
and no 3- or 6-byte token that does not begin with `#` does. -/
theorem hexToRGB_length_error (tok : GoString) :
    (hexToRGB tok = .error errFormat ↔
      ((dropLeadingHash tok).length ≠ 3 ∧ (dropLeadingHash tok).length ≠ 6)) ∧
    (tok.length = 4 → ¬ startsWithHash tok → hexToRGB tok = .error errFormat) ∧
    ((tok.length = 3 ∨ tok.length = 6) → ¬ startsWithHash tok →
      hexToRGB tok ≠ .error errFormat) := by
  have key := hexToRGB_format_iff tok
  refine ⟨key, ?_, ?_⟩
  · intro hl hs
    rw [key, dropLeadingHash_of_not hs]
    omega
  · intro hl hs
    rw [Ne, key, dropLeadingHash_of_not hs]
    omega

theorem hexToRGB_length_error_witness :
    hexToRGB (str "abcd") = .error errFormat ∧ hexToRGB (str "abc") ≠ .error errFormat :=
  ⟨(hexToRGB_length_error (str "abcd")).2.1 (by decide) (by decide),
   (hexToRGB_length_error (str "abc")).2.2 (by decide) (by decide)⟩

/-- C2, as stated, fails: `#12345` is a 6-character token whose first pair `#1`
is not two hexadecimal digits, yet the error is the length error, not the
red-component error.  The same holds of the 6-character token `é00000`, which
has seven bytes. -/
theorem hexToRGB_six_counterexample :
    (str "#12345").length = 6 ∧ ¬ pairOK 35 49 ∧
    hexToRGB (str "#12345") = .error errFormat ∧
    hexToRGB (str "#12345") ≠ .error errRed ∧
    String.length "é00000" = 6 ∧ (str "é00000").length = 7 ∧
    hexToRGB (str "é00000") = .error errFormat := by
  decide

/-- C2 (amended): for every 6-byte token that does not begin with `#`,
`hexToRGB` succeeds exactly when all six bytes are hexadecimal digits, and
otherwise fails with the error of the first pair that is not two hexadecimal
digits (red, then green, then blue); a 6-byte token that begins with `#` fails
with the length error. -/
theorem hexToRGB_six_bytes (c0 c1 c2 c3 c4 c5 : Nat) :
    (c0 = 35 → hexToRGB [c0, c1, c2, c3, c4, c5] = .error errFormat) ∧
    (c0 ≠ 35 →
      ((∃ rgb, hexToRGB [c0, c1, c2, c3, c4, c5] = .ok rgb) ↔
        (isHexDigit c0 ∧ isHexDigit c1 ∧ isHexDigit c2 ∧ isHexDigit c3 ∧
          isHexDigit c4 ∧ isHexDigit c5)) ∧
      (¬ pairOK c0 c1 → hexToRGB [c0, c1, c2, c3, c4, c5] = .error errRed) ∧
      (pairOK c0 c1 → ¬ pairOK c2 c3 →
        hexToRGB [c0, c1, c2, c3, c4, c5] = .error errGreen) ∧
      (pairOK c0 c1 → pairOK c2 c3 → ¬ pairOK c4 c5 →
        hexToRGB [c0, c1, c2, c3, c4, c5] = .error errBlue)) := by
  constructor
  · intro h
    subst h
    exact (hexToRGB_format_iff _).2 (by simp [dropLeadingHash])
  · intro h
    have hs : ¬ startsWithHash [c0, c1, c2, c3, c4, c5] := by simpa [startsWithHash] using h
    have e : hexToRGB [c0, c1, c2, c3, c4, c5] = parseComponents [c0, c1, c2, c3, c4, c5] := by
      rw [hexToRGB_eq, dropLeadingHash_of_not hs]; rfl
    rw [e, parseComponents_six]
    refine ⟨?_, ?_, ?_, ?_⟩
    · constructor
      · rintro ⟨rgb, hr⟩
        by_cases h1 : pairOK c0 c1
        · by_cases h2 : pairOK c2 c3
          · by_cases h3 : pairOK c4 c5
            · exact ⟨h1.1, h1.2, h2.1, h2.2, h3.1, h3.2⟩
            · simp [h1, h2, h3] at hr
          · simp [h1, h2] at hr
        · simp [h1] at hr
      · rintro ⟨a0, a1, a2, a3, a4, a5⟩
        have h1 : pairOK c0 c1 := ⟨a0, a1⟩
        have h2 : pairOK c2 c3 := ⟨a2, a3⟩
        have h3 : pairOK c4 c5 := ⟨a4, a5⟩
        exact ⟨_, by simp only [h1, h2, h3, if_true]; rfl⟩
    · intro h1; simp only [h1, if_false]
    · intro h1 h2; simp only [h1, h2, if_true, if_false]
    · intro h1 h2 h3; simp only [h1, h2, h3, if_true, if_false]

theorem hexToRGB_six_bytes_witness : hexToRGB (str "zz0000") = .error errRed :=
  ((hexToRGB_six_bytes 122 122 48 48 48 48).2 (by decide)).2.1 (by decide)

/-- C3: on a token of six hexadecimal digits `h0 .. h5`, `hexToRGB` returns
`(16*v(h0)+v(h1), 16*v(h2)+v(h3), 16*v(h4)+v(h5))`, each component within
`[0,255]`; `000000` yields `(0,0,0)` and `FFFFFF` yields `(255,255,255)`. -/
theorem hexToRGB_six_hex_digits :
    (∀ h0 h1 h2 h3 h4 h5 : Nat,
      isHexDigit h0 → isHexDigit h1 → isHexDigit h2 → isHexDigit h3 →
      isHexDigit h4 → isHexDigit h5 →
      hexToRGB [h0, h1, h2, h3, h4, h5] =
        .ok (16 * (hexValue h0 : Int) + hexValue h1, 16 * (hexValue h2 : Int) + hexValue h3,
          16 * (hexValue h4 : Int) + hexValue h5) ∧
      hexValue h0 < 16 ∧ hexValue h1 < 16 ∧ hexValue h2 < 16 ∧
      hexValue h3 < 16 ∧ hexValue h4 < 16 ∧ hexValue h5 < 16 ∧
      (0 : Int) ≤ 16 * (hexValue h0 : Int) + hexValue h1 ∧
      16 * (hexValue h0 : Int) + hexValue h1 ≤ 255 ∧
      (0 : Int) ≤ 16 * (hexValue h2 : Int) + hexValue h3 ∧
      16 * (hexValue h2 : Int) + hexValue h3 ≤ 255 ∧
      (0 : Int) ≤ 16 * (hexValue h4 : Int) + hexValue h5 ∧
      16 * (hexValue h4 : Int) + hexValue h5 ≤ 255) ∧
    hexToRGB (str "000000") = .ok (0, 0, 0) ∧
    hexToRGB (str "FFFFFF") = .ok (255, 255, 255) := by
  refine ⟨?_, by decide, by decide⟩
  intro h0 h1 h2 h3 h4 h5 d0 d1 d2 d3 d4 d5
  have hs : ¬ startsWithHash [h0, h1, h2, h3, h4, h5] := by
    have : h0 ≠ 35 := by unfold isHexDigit at d0; omega
    simpa [startsWithHash] using this
  have e : hexToRGB [h0, h1, h2, h3, h4, h5] = parseComponents [h0, h1, h2, h3, h4, h5] := by
    rw [hexToRGB_eq, dropLeadingHash_of_not hs]; rfl
  have p1 : pairOK h0 h1 := ⟨d0, d1⟩
  have p2 : pairOK h2 h3 := ⟨d2, d3⟩
  have p3 : pairOK h4 h5 := ⟨d4, d5⟩
  have v0 := (digitVal_hex d0).2
  have v1 := (digitVal_hex d1).2
  have v2 := (digitVal_hex d2).2
  have v3 := (digitVal_hex d3).2
  have v4 := (digitVal_hex d4).2
  have v5 := (digitVal_hex d5).2
  refine ⟨?_, v0, v1, v2, v3, v4, v5, ?_⟩
  · rw [e, parseComponents_six, if_pos p1, if_pos p2, if_pos p3,
      int_byte d0 d1, int_byte d2 d3, int_byte d4 d5]
    push_cast
    rfl
  · omega

theorem hexToRGB_six_hex_digits_witness :
    hexToRGB (str "1a2B3c") = .ok (26, 43, 60) :=
  (hexToRGB_six_hex_digits.1 49 97 50 66 51 99
      (by decide) (by decide) (by decide) (by decide) (by decide) (by decide)).1

theorem fmtC_ascii {b : Nat} (h : b < 128) : fmtC b = [b] := by
  unfold fmtC
  rw [if_pos (by omega)]

/-- C4: for three ASCII characters `x`, `y`, `z`, `hexToRGB` returns on the
3-character token `xyz` exactly what it returns on the 6-character token
`xxyyzz` (the same triple or the same error). -/
theorem hexToRGB_shorthand_expansion (x y z : Nat) (hx : x < 128) (hy : y < 128)
    (hz : z < 128) : hexToRGB [x, y, z] = hexToRGB [x, x, y, y, z, z] := by
  by_cases h : x = 35
  · subst h
    rw [hexToRGB_eq, hexToRGB_eq]
    rfl
  · have s3 : ¬ startsWithHash [x, y, z] := by simpa [startsWithHash] using h
    have s6 : ¬ startsWithHash [x, x, y, y, z, z] := by simpa [startsWithHash] using h
    rw [hexToRGB_eq, hexToRGB_eq, dropLeadingHash_of_not s3, dropLeadingHash_of_not s6]
    simp only [expandHex, fmtC_ascii hx, fmtC_ascii hy, fmtC_ascii hz, List.cons_append,
      List.nil_append]

theorem hexToRGB_shorthand_expansion_witness :
    hexToRGB (str "abc") = hexToRGB (str "aabbcc") :=
  hexToRGB_shorthand_expansion 97 98 99 (by decide) (by decide) (by decide)

/-- C5: a leading `#` is optional and exactly one is stripped: for every string
`s` that does not itself begin with `#`, `hexToRGB("#" + s)` returns the same
result (value or error) as `hexToRGB(s)`. -/
theorem hexToRGB_leading_hash (s : GoString) (h : ¬ startsWithHash s) :
    hexToRGB (str "#" ++ s) = hexToRGB s := by
  rw [str_hash, hexToRGB_eq, hexToRGB_eq, dropLeadingHash_of_not h]
  rfl

theorem hexToRGB_leading_hash_witness :
    hexToRGB (str "#" ++ str "ff8000") = hexToRGB (str "ff8000") :=
  hexToRGB_leading_hash (str "ff8000") (by decide)

/-! ## Lemmas on `strconv.Atoi` -/

theorem decimalFrom_nil (n : Nat) : decimalFrom n [] = n := rfl

theorem decimalFrom_cons (n c : Nat) (cs : GoString) :
    decimalFrom n (c :: cs) = decimalFrom (n * 10 + (c - 48)) cs := rfl

theorem decimalFrom_ge (ds : GoString) (n : Nat) : n ≤ decimalFrom n ds := by
  induction ds generalizing n with
  | nil => rw [decimalFrom_nil]
  | cons c cs ih =>
    have := ih (n * 10 + (c - 48))
    rw [decimalFrom_cons]
    omega

theorem decimalFrom_mono (ds : GoString) {m n : Nat} (h : m ≤ n) :
    decimalFrom m ds ≤ decimalFrom n ds := by
  induction ds generalizing m n with
  | nil => rw [decimalFrom_nil, decimalFrom_nil]; exact h
  | cons c cs ih =>
    rw [decimalFrom_cons, decimalFrom_cons]
    exact ih (by omega)

/-- A string of `k` digits read after the value `n` stays below `(n+1) * 10^k`. -/
theorem decimalFrom_lt (ds : GoString) (n : Nat) (h : ∀ c ∈ ds, isDigit c) :
    decimalFrom n ds + 1 ≤ (n + 1) * 10 ^ ds.length := by
  induction ds generalizing n with
  | nil => rw [decimalFrom_nil]; simp
  | cons c cs ih =>
    have hc : isDigit c := h c (List.mem_cons_self _ _)
    have := ih (n * 10 + (c - 48)) (fun x hx => h x (List.mem_cons_of_mem _ hx))
    rw [decimalFrom_cons, List.length_cons, pow_succ]
    unfold isDigit at hc
    have h2 : (n * 10 + (c - 48) + 1) * 10 ^ cs.length ≤ ((n + 1) * 10) * 10 ^ cs.length :=
      Nat.mul_le_mul_right _ (by omega)
    calc decimalFrom (n * 10 + (c - 48)) cs + 1
        ≤ (n * 10 + (c - 48) + 1) * 10 ^ cs.length := this
      _ ≤ ((n + 1) * 10) * 10 ^ cs.length := h2
      _ = (n + 1) * (10 ^ cs.length * 10) := by ring

theorem wrap64_of_range {i : Int} (h1 : -((2 ^ 63 : Nat) : Int) ≤ i)
    (h2 : i < ((2 ^ 63 : Nat) : Int)) : wrap64 i = i := by
  unfold wrap64
  have : (i + ((2 ^ 63 : Nat) : Int)) % ((2 ^ 64 : Nat) : Int) = i + ((2 ^ 63 : Nat) : Int) :=
    Int.emod_eq_of_lt (by omega) (by push_cast at *; omega)
  rw [this]; omega

/-- The fast-path loop of `Atoi` on decimal digits whose value fits an `int`. -/
theorem atoiLoop_digits (ds : GoString) (n : Nat) (h : ∀ c ∈ ds, isDigit c)
    (hb : decimalFrom n ds < 2 ^ 63) :
    atoiLoop ds (n : Int) = .ok (decimalFrom n ds : Int) := by
  induction ds generalizing n with
  | nil => rw [decimalFrom_nil]; rfl
  | cons c cs ih =>
    have hc : isDigit c := h c (List.mem_cons_self _ _)
    unfold isDigit at hc
    rw [decimalFrom_cons] at hb ⊢
    have hn := decimalFrom_ge cs (n * 10 + (c - 48))
    have e1 : (c + 256 - 48) % 256 = c - 48 := by omega
    have w1 : wrap64 ((n : Int) * 10) = (n : Int) * 10 :=
      wrap64_of_range (by push_cast; omega) (by push_cast; omega)
    have w2 : wrap64 ((n : Int) * 10 + ((c - 48 : Nat) : Int))
        = ((n * 10 + (c - 48) : Nat) : Int) := by
      rw [wrap64_of_range (by push_cast; omega) (by push_cast; omega)]
      push_cast; rfl
    simp only [atoiLoop, e1, w1, w2]
    rw [if_neg (by omega)]
    exact ih _ (fun x hx => h x (List.mem_cons_of_mem _ hx)) hb

/-- The fast-path loop of `Atoi` fails on a string with a byte that is not a
decimal digit. -/
theorem atoiLoop_not_digits (ds : GoString) (n : Int) (hs : IsBytes ds)
    (h : ¬ ∀ c ∈ ds, isDigit c) : atoiLoop ds n = .error .invalid := by
  induction ds generalizing n with
  | nil => simp at h
  | cons c cs ih =>
    have hc : c < 256 := hs c (List.mem_cons_self _ _)
    simp only [atoiLoop]
    by_cases hd : isDigit c
    · unfold isDigit at hd
      rw [if_neg (by omega)]
      apply ih _ (fun x hx => hs x (List.mem_cons_of_mem _ hx))
      intro hall
      apply h
      intro x hx
      rcases List.mem_cons.1 hx with rfl | hx
      · exact hd
      · exact hall x hx
    · unfold isDigit at hd
      rw [if_pos (by omega)]

theorem digitVal_digit {c : Nat} (h : isDigit c) : digitVal c = some (c - 48) := by
  unfold isDigit at h
  unfold digitVal
  rw [if_pos h]

theorem digitVal_not_digit {c : Nat} (h : ¬ isDigit c) :
    digitVal c = none ∨ ∃ d, digitVal c = some d ∧ 10 ≤ d := by
  unfold isDigit at h
  unfold digitVal
  rw [if_neg h]
  by_cases h3 : 97 ≤ lower c ∧ lower c ≤ 122
  · rw [if_pos h3]; right; exact ⟨lower c - 97 + 10, rfl, by omega⟩
  · rw [if_neg h3]; left; rfl

/-- The digit loop of `ParseUint(_, 10, 64)` on decimal digits: the value when
it fits 64 bits, the range error otherwise. -/
theorem parseUintLoop10_digits (ds : GoString) (n : Nat) (h : ∀ c ∈ ds, isDigit c)
    (hn : n < 2 ^ 64) :
    parseUintLoop 10 1844674407370955162 18446744073709551615 ds n =
      if decimalFrom n ds ≤ 18446744073709551615 then .ok (decimalFrom n ds)
      else .error .range := by
  induction ds generalizing n with
  | nil =>
    rw [decimalFrom_nil, if_pos (by omega)]
    rfl
  | cons c cs ih =>
    have hc : isDigit c := h c (List.mem_cons_self _ _)
    have hd := digitVal_digit hc
    unfold isDigit at hc
    have hge := decimalFrom_ge cs (n * 10 + (c - 48))
    rw [decimalFrom_cons]
    simp only [parseUintLoop, hd]
    rw [if_neg (by omega)]
    by_cases h1 : n ≥ 1844674407370955162
    · rw [if_pos h1, if_neg (by omega)]
    · rw [if_neg h1]
      by_cases h2 : n * 10 + (c - 48) < 2 ^ 64
      · have e : (n * 10 + (c - 48)) % 2 ^ 64 = n * 10 + (c - 48) := Nat.mod_eq_of_lt h2
        rw [e, if_neg (by omega)]
        exact ih _ (fun x hx => h x (List.mem_cons_of_mem _ hx)) h2
      · have e : (n * 10 + (c - 48)) % 2 ^ 64 = n * 10 + (c - 48) - 2 ^ 64 := by omega
        rw [e, if_pos (by omega), if_neg (by omega)]

/-- The digit loop of `ParseUint(_, 10, 64)` fails on a string with a byte that
is not a decimal digit. -/
theorem parseUintLoop10_not_digits (ds : GoString) (n : Nat)
    (h : ¬ ∀ c ∈ ds, isDigit c) :
    ∃ e, parseUintLoop 10 1844674407370955162 18446744073709551615 ds n = .error e := by
  induction ds generalizing n with
  | nil => simp at h
  | cons c cs ih =>
    by_cases hd : isDigit c
    · have hc := digitVal_digit hd
      simp only [parseUintLoop, hc]
      have hrest : ¬ ∀ x ∈ cs, isDigit x := by
        intro hall
        apply h
        intro x hx
        rcases List.mem_cons.1 hx with rfl | hx
        · exact hd
        · exact hall x hx
      split_ifs
      · exact ⟨_, rfl⟩
      · exact ⟨_, rfl⟩
      · exact ⟨_, rfl⟩
      · exact ih _ hrest
    · exact ⟨_, parseUintLoop_not_digit _ _ _ _ _ _ (digitVal_not_digit hd)⟩

theorem ParseUint_ten (s : GoString) (hne : s ≠ []) :
    ParseUint s 10 0 = parseUintLoop 10 1844674407370955162 18446744073709551615 s 0 := by
  unfold ParseUint
  rw [if_neg hne]
  norm_num

theorem ParseUint_ten_digits (s : GoString) (h : allDigits s) :
    ParseUint s 10 0 =
      if decimalValue s ≤ 18446744073709551615 then .ok (decimalValue s)
      else .error .range := by
  rw [ParseUint_ten s h.1, parseUintLoop10_digits s 0 h.2 (by norm_num)]
  rfl

theorem ParseUint_ten_not_digits (s : GoString) (h : ¬ allDigits s) :
    ∃ e, ParseUint s 10 0 = .error e := by
  by_cases hne : s = []
  · subst hne
    exact ⟨.invalid, rfl⟩
  · rw [ParseUint_ten s hne]
    exact parseUintLoop10_not_digits s 0 (fun hall => h ⟨hne, hall⟩)

theorem ParseInt_cons (c : Nat) (cs : GoString) :
    ParseInt (c :: cs) 10 =
      match ParseUint (if c = 43 ∨ c = 45 then cs else c :: cs) 10 0 with
      | .error e => .error e
      | .ok un =>
        if ¬ c = 45 ∧ un ≥ 2 ^ 63 then .error .range
        else if c = 45 ∧ un > 2 ^ 63 then .error .range
        else .ok (if c = 45 then wrap64 (-(int64 un)) else int64 un) := by
  simp only [ParseInt, decide_eq_true_eq]

theorem int64_small {u : Nat} (h : u < 2 ^ 63) : int64 u = (u : Int) := by
  unfold int64
  rw [if_pos h]

theorem wrap64_neg_int64 {u : Nat} (h : u ≤ 2 ^ 63) : wrap64 (-(int64 u)) = -(u : Int) := by
  by_cases h1 : u < 2 ^ 63
  · rw [int64_small h1]
    exact wrap64_of_range (by push_cast; omega) (by push_cast; omega)
  · have e : u = 2 ^ 63 := by omega
    subst e
    decide

/-- The value part of `ParseInt(_, 10, 0)` after the sign, on decimal digits. -/
theorem ParseInt_digits (c : Nat) (cs ds : GoString)
    (hds : (if c = 43 ∨ c = 45 then cs else c :: cs) = ds) (h : allDigits ds) :
    (ParseInt (c :: cs) 10).toOption =
      if inInt64 (if c = 45 then -(decimalValue ds : Int) else (decimalValue ds : Int))
      then some (if c = 45 then -(decimalValue ds : Int) else (decimalValue ds : Int))
      else none := by
  rw [ParseInt_cons, hds, ParseUint_ten_digits ds h]
  unfold inInt64
  by_cases hM : decimalValue ds ≤ 18446744073709551615
  · rw [if_pos hM]
    by_cases hneg : c = 45
    · simp only [hneg, not_true_eq_false, false_and, if_false, true_and, if_true]
      by_cases hr : decimalValue ds > 2 ^ 63
      · rw [if_pos hr, if_neg (by push_cast; omega)]
        rfl
      · rw [if_neg hr, if_pos (by push_cast; omega), wrap64_neg_int64 (by omega)]
        rfl
    · simp only [hneg, not_false_eq_true, true_and, false_and, if_false]
      by_cases hr : decimalValue ds ≥ 2 ^ 63
      · rw [if_pos hr, if_neg (by push_cast; omega)]
        rfl
      · rw [if_neg hr, if_pos (by push_cast; omega), int64_small (by omega)]
        rfl
  · rw [if_neg hM]
    by_cases hneg : c = 45
    · simp only [hneg, if_true]
      rw [if_neg (by push_cast; omega)]
      rfl
    · simp only [hneg, if_false]
      rw [if_neg (by push_cast; omega)]
      rfl

theorem ParseInt_not_digits (c : Nat) (cs : GoString)
    (h : ¬ allDigits (if c = 43 ∨ c = 45 then cs else c :: cs)) :
    (ParseInt (c :: cs) 10).toOption = none := by
  obtain ⟨e, he⟩ := ParseUint_ten_not_digits _ h
  rw [ParseInt_cons, he]
  rfl

theorem parseDecimal_cons (c : Nat) (cs : GoString) :
    parseDecimal (c :: cs) =
      if allDigits (if c = 43 ∨ c = 45 then cs else c :: cs)
      then some (if c = 45 then -(decimalValue (if c = 43 ∨ c = 45 then cs else c :: cs) : Int)
        else (decimalValue (if c = 43 ∨ c = 45 then cs else c :: cs) : Int))
      else none := by
  unfold parseDecimal
  by_cases h1 : c = 45
  · subst h1; simp
  · by_cases h2 : c = 43
    · subst h2; simp
    · simp [h1, h2]

theorem decimalInt_cons (c : Nat) (cs ds : GoString)
    (hds : (if c = 43 ∨ c = 45 then cs else c :: cs) = ds) :
    decimalInt (c :: cs) =
      if allDigits ds then
        if inInt64 (if c = 45 then -(decimalValue ds : Int) else (decimalValue ds : Int))
        then some (if c = 45 then -(decimalValue ds : Int) else (decimalValue ds : Int))
        else none
      else none := by
  unfold decimalInt
  rw [parseDecimal_cons, hds]
  by_cases h : allDigits ds
  · simp only [h, if_true]
  · simp only [h, if_false]

/-- `ParseInt(s, 10, 0)` succeeds exactly on the base-10 integers that fit an
`int`, with their value. -/
theorem ParseInt_spec (s : GoString) : (ParseInt s 10).toOption = decimalInt s := by
  cases s with
  | nil => rfl
  | cons c cs =>
    rw [decimalInt_cons c cs _ rfl]
    by_cases h : allDigits (if c = 43 ∨ c = 45 then cs else c :: cs)
    · rw [if_pos h, ParseInt_digits c cs _ rfl h]
    · rw [if_neg h, ParseInt_not_digits c cs h]

theorem decimalValue_lt_of_short (ds : GoString) (h : ∀ c ∈ ds, isDigit c)
    (hl : ds.length ≤ 18) : decimalValue ds < 10 ^ 18 := by
  have h1 := decimalFrom_lt ds 0 h
  have h2 : 10 ^ ds.length ≤ 10 ^ 18 := Nat.pow_le_pow_right (by norm_num) hl
  unfold decimalValue
  omega

/-- `Atoi(s)` succeeds exactly on the base-10 integers that fit an `int`, with
their value. -/
theorem Atoi_spec (s : GoString) (hs : IsBytes s) : (Atoi s).toOption = decimalInt s := by
  cases s with
  | nil => rfl
  | cons c cs =>
    by_cases hlen : (c :: cs).length < 19
    · have hsign : (c = 45 ∨ c = 43) ↔ (c = 43 ∨ c = 45) := or_comm
      have hA : Atoi (c :: cs) =
          if (c = 43 ∨ c = 45) ∧ (if c = 43 ∨ c = 45 then cs else c :: cs).length < 1
          then .error .invalid
          else
            match atoiLoop (if c = 43 ∨ c = 45 then cs else c :: cs) 0 with
            | .error e => .error e
            | .ok n => .ok (if c = 45 then wrap64 (-n) else n) := by
        simp only [Atoi, hlen, if_true, hsign]
      rw [hA, decimalInt_cons c cs _ rfl]
      generalize hds : (if c = 43 ∨ c = 45 then cs else c :: cs) = ds
      have hdl : ds.length ≤ 18 := by
        rw [← hds]
        simp only [List.length_cons] at hlen
        split_ifs
        · omega
        · simp only [List.length_cons]; omega
      have hdb : IsBytes ds := by
        rw [← hds]
        split_ifs
        · exact fun x hx => hs x (List.mem_cons_of_mem _ hx)
        · exact hs
      by_cases h : allDigits ds
      · have hv := decimalValue_lt_of_short ds h.2 hdl
        have hne : ¬ ((c = 43 ∨ c = 45) ∧ ds.length < 1) := by
          have : ds.length ≠ 0 := fun h0 => h.1 (List.length_eq_zero.1 h0)
          omega
        have hloop := atoiLoop_digits ds 0 h.2 (by unfold decimalValue at hv; omega)
        rw [if_neg hne, if_pos h]
        simp only [Nat.cast_zero] at hloop
        rw [hloop]
        have hin : inInt64 (if c = 45 then -(decimalValue ds : Int) else (decimalValue ds : Int)) := by
          unfold inInt64
          split_ifs <;> constructor <;> push_cast <;> omega
        rw [if_pos hin]
        by_cases hneg : c = 45
        · simp only [hneg, if_true]
          have : wrap64 (-(decimalFrom 0 ds : Int)) = -(decimalValue ds : Int) := by
            unfold decimalValue
            unfold decimalValue at hv
            exact wrap64_of_range (by push_cast; omega) (by push_cast; omega)
          rw [this]
          rfl
        · simp only [hneg, if_false]
          rfl
      · rw [if_neg h]
        by_cases hemp : (c = 43 ∨ c = 45) ∧ ds.length < 1
        · rw [if_pos hemp]
          rfl
        · rw [if_neg hemp]
          have hnd : ¬ ∀ x ∈ ds, isDigit x := by
            intro hall
            apply h
            refine ⟨?_, hall⟩
            intro he
            subst he
            by_cases hsg : c = 43 ∨ c = 45
            · exact hemp ⟨hsg, by simp⟩
            · rw [if_neg hsg] at hds
              cases hds
          rw [atoiLoop_not_digits ds 0 hdb hnd]
          rfl
    · have hA : Atoi (c :: cs) = ParseInt (c :: cs) 10 := by
        simp only [Atoi, hlen, if_false]
      rw [hA, ParseInt_spec]

/-! ## The size check of `generateQRHandler` -/

theorem hexToRGB_error_cases {tok : GoString} {m : String} (h : hexToRGB tok = .error m) :
    m = errFormat ∨ m = errRed ∨ m = errGreen ∨ m = errBlue := by
  rw [hexToRGB_eq] at h
  split at h
  · left; injection h with h; exact h.symm
  · unfold parseComponents at h
    rcases parsePair_error h with h | ⟨_, h⟩
    · right; left; exact h.symm
    · rcases parsePair_error h with h | ⟨_, h⟩
      · right; right; left; exact h.symm
      · rcases parsePair_error h with h | ⟨_, h⟩
        · right; right; right; exact h.symm
        · cases h

theorem sizeInRange_iff_decimalInt (s : GoString) :
    sizeInRange s ↔ ∃ n, decimalInt s = some n ∧ 1 ≤ n ∧ n ≤ 2048 := by
  unfold sizeInRange decimalInt
  cases parseDecimal s with
  | none => simp
  | some n =>
    by_cases hin : inInt64 n
    · simp [hin]
    · simp only [hin, if_false]
      unfold inInt64 at hin
      constructor
      · intro h; exact absurd ⟨by push_cast; omega, by push_cast; omega⟩ hin
      · rintro ⟨_, h, _⟩; cases h

/-- The handler after the url checks, as a function of the result of `Atoi`. -/
theorem generateQRHandler_of_url {QR : Type} (env : Env QR) (q : Query) (u text : GoString)
    (hu : q.url = some u) (hne : u ≠ []) (hdec : decodeBase64URL u = .ok text) :
    generateQRHandler env q =
      match Atoi (DefaultQuery q.size (str "256")) with
      | .error _ => .json 400 errSize
      | .ok size =>
        if size ≤ 0 ∨ size > 2048 then .json 400 errSize
        else
          match hexToRGB (DefaultQuery q.color (str "000000")) with
          | .outOfRange => .panicked
          | .error msg => .json 400 msg
          | .ok (r, g, b) =>
            match env.new text (qrLevel env (DefaultQuery q.level (str "L"))) with
            | .error _ => .json 500 "failed to generate QR code"
            | .ok qr =>
              match env.write qr Color.White (.rgba (uint8 r) (uint8 g) (uint8 b) 255) size with
              | .error _ => .json 500 "failed to encode QR code"
              | .ok png => .data 200 "image/png" png := by
  unfold generateQRHandler
  simp only [hu, getQuery, Option.getD_some, hne, if_false, hdec, errSize]

/-- C6: with a valid url parameter, the size check rejects the request with
status 400 and the message "invalid size parameter (max 2048)" exactly when the
size string is not a base-10 integer `n` with `1 <= n <= 2048`; an absent size
parameter behaves as `256`; `2048` is accepted and `2049`, `0`, negative
numbers, the empty string and every string that is not a number are rejected. -/
theorem size_check {QR : Type} (env : Env QR) (q : Query) (u text : GoString)
    (hu : q.url = some u) (hne : u ≠ []) (hdec : decodeBase64URL u = .ok text)
    (hb : IsBytes (DefaultQuery q.size (str "256"))) :
    (generateQRHandler env q = .json 400 errSize ↔
      ¬ sizeInRange (DefaultQuery q.size (str "256"))) ∧
    generateQRHandler env { q with size := none }
      = generateQRHandler env { q with size := some (str "256") } ∧
    sizeInRange (str "2048") ∧ ¬ sizeInRange (str "2049") ∧ ¬ sizeInRange (str "0") ∧
    ¬ sizeInRange [] ∧ (∀ ds : GoString, ¬ sizeInRange (45 :: ds)) ∧
    (∀ s : GoString, parseDecimal s = none → ¬ sizeInRange s) := by
  refine ⟨?_, rfl, by decide, by decide, by decide, by decide, ?_, ?_⟩
  · rw [generateQRHandler_of_url env q u text hu hne hdec, sizeInRange_iff_decimalInt,
      ← Atoi_spec _ hb]
    cases hA : Atoi (DefaultQuery q.size (str "256")) with
    | error e =>
      simp [Except.toOption]
    | ok size =>
      by_cases hr : size ≤ 0 ∨ size > 2048
      · simp only [hr, if_true, true_iff]
        rintro ⟨n, hn, h1, h2⟩
        simp only [Except.toOption, Option.some.injEq] at hn
        omega
      · simp only [hr, if_false]
        constructor
        · intro h
          exfalso
          cases hc : hexToRGB (DefaultQuery q.color (str "000000")) with
          | outOfRange => rw [hc] at h; cases h
          | error msg =>
            rw [hc] at h
            simp only [Response.json.injEq, true_and] at h
            rcases hexToRGB_error_cases hc with h' | h' | h' | h' <;>
              (rw [h'] at h; revert h; decide)
          | ok rgb =>
            obtain ⟨r, g, b⟩ := rgb
            rw [hc] at h
            simp only at h
            split at h
            · simp at h
            · split at h
              · simp at h
              · cases h
        · intro h
          exfalso
          apply h
          exact ⟨size, rfl, by omega, by omega⟩
  · intro ds h
    unfold sizeInRange at h
    rw [parseDecimal_cons] at h
    simp only [Nat.reduceEqDiff, or_true, if_true] at h
    split at h
    · rename_i n hn
      split_ifs at hn
      simp only [Option.some.injEq] at hn
      omega
    · exact h
  · intro s hs h
    unfold sizeInRange at h
    rw [hs] at h
    exact h

theorem size_check_witness :
    generateQRHandler echoEncoder ⟨some (str "aGk="), none, some (str "2049"), none⟩
      = .json 400 errSize :=
  (size_check echoEncoder ⟨some (str "aGk="), none, some (str "2049"), none⟩
    (str "aGk=") (str "hi") rfl (by decide) (by decide) (by decide)).1.2 (by decide)

/-! ## The level switch -/

theorem ToUpper_ascii (mapUpper : GoString → GoString) (s : GoString)
    (h : ∀ c ∈ s, c < 128) : ToUpper mapUpper s = s.map upperASCII := by
  have hA : (s.all fun c => decide (c < 0x80)) = true := by
    simpa [List.all_eq_true] using h
  unfold ToUpper
  simp only [hA, if_true]
  by_cases hl : (s.any fun c => decide (97 ≤ c ∧ c ≤ 122)) = true
  · simp only [hl, not_true_eq_false, if_false]
  · simp only [hl, not_false_eq_true, if_true]
    have : ∀ c ∈ s, upperASCII c = c := by
      intro c hc
      unfold upperASCII
      by_cases hc2 : 97 ≤ c ∧ c ≤ 122
      · exfalso; apply hl
        rw [List.any_eq_true]
        exact ⟨c, hc, by simpa using hc2⟩
      · rw [if_neg hc2]
    conv_lhs => rw [← List.map_id s]
    exact List.map_congr_left (fun c hc => (this c hc).symm)

theorem ToUpper_non_ascii (mapUpper : GoString → GoString) (s : GoString)
    (h : ¬ ∀ c ∈ s, c < 128) : ToUpper mapUpper s = mapUpper s := by
  have hA : ¬ (s.all fun c => decide (c < 0x80)) = true := by
    simpa [List.all_eq_true] using h
  unfold ToUpper
  simp only [hA, if_false]
  rfl

theorem map_upperASCII_eq_letter (s : GoString) (x : Nat) (hx : 65 ≤ x ∧ x ≤ 90) :
    s.map upperASCII = [x] ↔ (s = [x] ∨ s = [x + 32]) := by
  constructor
  · intro h
    match s, h with
    | [a], h =>
      simp only [List.map_cons, List.map_nil, List.cons.injEq, and_true] at h
      unfold upperASCII at h
      split_ifs at h
      · right; congr 1; omega
      · left; congr 1
  · rintro (h | h)
    · subst h
      simp only [List.map_cons, List.map_nil, upperASCII]
      rw [if_neg (by omega)]
    · subst h
      simp only [List.map_cons, List.map_nil, upperASCII]
      rw [if_pos (by omega)]
      congr 1

theorem str_letters :
    str "M" = [77] ∧ str "m" = [77 + 32] ∧ str "Q" = [81] ∧ str "q" = [81 + 32] ∧
    str "H" = [72] ∧ str "h" = [72 + 32] ∧ str "L" = [76] ∧ str "l" = [76 + 32] := by
  decide

/-- The level switch agrees with the level table of the specification. -/
theorem qrLevel_eq {QR : Type} (env : Env QR) (hU : UpperSound env.mapUpper)
    (level : GoString) : qrLevel env level = levelOfLetter level := by
  obtain ⟨eM, em, eQ, eq, eH, eh, eL, el⟩ := str_letters
  unfold qrLevel levelOfLetter
  rw [eM, em, eQ, eq, eH, eh, eL, el]
  by_cases hA : ∀ c ∈ level, c < 128
  · simp only [ToUpper_ascii _ _ hA,
      map_upperASCII_eq_letter level 77 (by omega),
      map_upperASCII_eq_letter level 81 (by omega),
      map_upperASCII_eq_letter level 72 (by omega)]
    by_cases h1 : level = [76] ∨ level = [76 + 32]
    · rw [if_pos h1]
      rcases h1 with h | h <;> subst h <;> decide
    · rw [if_neg h1]
  · have hne : ∃ c ∈ level, 128 ≤ c := by
      by_contra hcon
      apply hA
      intro c hc
      by_contra h2
      exact hcon ⟨c, hc, by omega⟩
    obtain ⟨h1, h2, h3⟩ := hU level hne
    rw [eM] at h1
    rw [eQ] at h2
    rw [eH] at h3
    rw [ToUpper_non_ascii _ _ hA]
    simp only [h1, h2, h3, if_false]
    have hl : ∀ x, x < 128 → level ≠ [x] := by
      intro x hx he
      apply hA
      intro c hc
      rw [he] at hc
      simp only [List.mem_singleton] at hc
      omega
    simp only [hl 76 (by omega), hl (76 + 32) (by omega), hl 77 (by omega),
      hl (77 + 32) (by omega), hl 81 (by omega), hl (81 + 32) (by omega),
      hl 72 (by omega), hl (72 + 32) (by omega), or_self, if_false]

theorem upperSound_echo : UpperSound echoEncoder.mapUpper := by
  intro s hs
  obtain ⟨c, hc, h128⟩ := hs
  obtain ⟨eM, -, eQ, -, eH, -, -, -⟩ := str_letters
  rw [eM, eQ, eH]
  refine ⟨?_, ?_, ?_⟩ <;>
  · intro he
    change s = _ at he
    rw [he] at hc
    simp only [List.mem_singleton] at hc
    omega

/-- C7: the level passed to the encoder is a total function of the level
string: compared case-insensitively, `L` gives Low, `M` Medium, `Q` Quartile
(`qrcode.High`) and `H` Highest; every other string (the empty string and
multi-character strings included) gives Low and the request is handled as with
`L`, without an error of its own; an absent level parameter gives Low. -/
theorem qrLevel_total {QR : Type} (env : Env QR) (hU : UpperSound env.mapUpper) :
    (∀ level : GoString, qrLevel env level = levelOfLetter level) ∧
    (∀ level : GoString, (level = str "L" ∨ level = str "l") → qrLevel env level = .Low) ∧
    (∀ level : GoString, (level = str "M" ∨ level = str "m") → qrLevel env level = .Medium) ∧
    (∀ level : GoString, (level = str "Q" ∨ level = str "q") → qrLevel env level = .High) ∧
    (∀ level : GoString, (level = str "H" ∨ level = str "h") → qrLevel env level = .Highest) ∧
    (∀ level : GoString,
      level ∉ [str "L", str "l", str "M", str "m", str "Q", str "q", str "H", str "h"] →
      qrLevel env level = .Low ∧
      ∀ q : Query, generateQRHandler env { q with level := some level }
        = generateQRHandler env { q with level := some (str "L") }) ∧
    qrLevel env [] = .Low ∧
    qrLevel env (str "LL") = .Low ∧
    qrLevel env (DefaultQuery none (str "L")) = .Low := by
  have key := qrLevel_eq env hU
  refine ⟨key, ?_, ?_, ?_, ?_, ?_, ?_, ?_, ?_⟩
  · rintro level (h | h) <;> subst h <;> rw [key] <;> decide
  · rintro level (h | h) <;> subst h <;> rw [key] <;> decide
  · rintro level (h | h) <;> subst h <;> rw [key] <;> decide
  · rintro level (h | h) <;> subst h <;> rw [key] <;> decide
  · intro level h
    simp only [List.mem_cons, List.mem_singleton, List.not_mem_nil, or_false, not_or] at h
    obtain ⟨h1, h2, h3, h4, h5, h6, h7, h8⟩ := h
    have hlow : qrLevel env level = .Low := by
      rw [key]
      unfold levelOfLetter
      simp only [h1, h2, h3, h4, h5, h6, h7, h8, or_self, if_false]
    have hL : qrLevel env (str "L") = .Low := by rw [key]; decide
    refine ⟨hlow, ?_⟩
    intro q
    simp only [generateQRHandler, DefaultQuery, Option.getD_some, hlow, hL]
  · rw [key]; decide
  · rw [key]; decide
  · rw [key]; decide

theorem qrLevel_total_witness :
    qrLevel echoEncoder (str "q") = .High ∧ qrLevel echoEncoder (str "x") = .Low :=
  ⟨(qrLevel_total echoEncoder upperSound_echo).2.2.2.1 (str "q") (Or.inr rfl),
   ((qrLevel_total echoEncoder upperSound_echo).2.2.2.2.2.1 (str "x") (by decide)).1⟩

/-! ## Lemmas on `base64.URLEncoding` -/

set_option maxRecDepth 100000 in
theorem decodeMap_encodeChar : ∀ v < 64, decodeMap (encodeChar v) = v := by
  decide

set_option maxRecDepth 100000 in
theorem decodeMap_small : ∀ c < 128, (decodeMap c ≠ 0xFF ↔ isAlpha c) := by
  decide

theorem encodeURL_ascii : ∀ x ∈ encodeURL, x < 128 := by
  decide

theorem decodeMap_lt {c : Nat} (h : decodeMap c ≠ 0xFF) : decodeMap c < 64 := by
  unfold decodeMap at h ⊢
  by_cases hi : List.indexOf c encodeURL < 64
  · simp only [hi, if_true]
  · simp only [hi, if_false] at h
    exact absurd rfl h

theorem decodeMap_ne_iff (c : Nat) : decodeMap c ≠ 0xFF ↔ isAlpha c := by
  by_cases hc : c < 128
  · exact decodeMap_small c hc
  · have hnot : c ∉ encodeURL := fun hm => hc (encodeURL_ascii c hm)
    have hi : List.indexOf c encodeURL = encodeURL.length := List.indexOf_of_not_mem hnot
    have hl : encodeURL.length = 64 := by decide
    constructor
    · intro h
      exfalso; apply h
      unfold decodeMap
      simp only [hi, hl]
      rfl
    · intro h
      unfold isAlpha at h
      omega

theorem decodeFrom_encodeChar (v : Nat) (hv : v < 64) (cs : GoString) (dbuf acc : List Nat) :
    decodeFrom (encodeChar v :: cs) dbuf acc =
      if dbuf.length = 3 then decodeFrom cs [] (acc ++ quantumBytes (dbuf ++ [v]) 4)
      else decodeFrom cs (dbuf ++ [v]) acc := by
  have h1 := decodeMap_encodeChar v hv
  have h2 : decodeMap (encodeChar v) ≠ 0xFF := by rw [h1]; omega
  rw [decodeFrom, if_pos h2, h1]

theorem decodeFrom_pad (cs : GoString) (dbuf acc : List Nat) :
    decodeFrom (61 :: cs) dbuf acc = decodePadding cs dbuf acc := by
  have h1 : ¬ decodeMap 61 ≠ 0xFF := by decide
  rw [decodeFrom, if_neg h1, if_neg (by omega), if_neg (by omega)]

theorem quantumBytes_three (b0 b1 b2 : Nat) (h0 : b0 < 256) (h1 : b1 < 256) (h2 : b2 < 256) :
    quantumBytes [b0 / 4, b0 % 4 * 16 + b1 / 16, b1 % 16 * 4 + b2 / 64, b2 % 64] 4
      = [b0, b1, b2] := by
  simp only [quantumBytes, List.getD_cons_zero, List.getD_cons_succ, List.take_succ_cons,
    List.take_zero]
  norm_num
  refine ⟨?_, ?_, ?_⟩ <;> omega

theorem quantumBytes_two (b0 b1 : Nat) (h0 : b0 < 256) (h1 : b1 < 256) :
    quantumBytes [b0 / 4, b0 % 4 * 16 + b1 / 16, b1 % 16 * 4] 3 = [b0, b1] := by
  simp only [quantumBytes, List.getD_cons_zero, List.getD_cons_succ, List.take_succ_cons,
    List.take_zero, List.getD_nil]
  norm_num
  refine ⟨?_, ?_⟩ <;> omega

theorem quantumBytes_one (b0 : Nat) (h0 : b0 < 256) :
    quantumBytes [b0 / 4, b0 % 4 * 16] 2 = [b0] := by
  simp only [quantumBytes, List.getD_cons_zero, List.getD_cons_succ, List.take_succ_cons,
    List.take_zero, List.getD_nil]
  norm_num
  omega

/-- Decoding the encoding of `t` appends `t` to what was decoded before. -/
theorem decodeFrom_encode (t : List Nat) (ht : IsBytes t) (acc : List Nat) :
    decodeFrom (encodeBase64URL t) [] acc = .ok (acc ++ t) := by
  induction t using encodeBase64URL.induct generalizing acc with
  | case1 b0 b1 b2 rest ih =>
    have h0 : b0 < 256 := ht b0 (by simp)
    have h1 : b1 < 256 := ht b1 (by simp)
    have h2 : b2 < 256 := ht b2 (by simp)
    have hr : IsBytes rest := fun x hx => ht x (by simp [hx])
    rw [encodeBase64URL,
      decodeFrom_encodeChar _ (by omega), if_neg (by simp),
      decodeFrom_encodeChar _ (by omega), if_neg (by simp),
      decodeFrom_encodeChar _ (by omega), if_neg (by simp),
      decodeFrom_encodeChar _ (by omega), if_pos (by simp)]
    simp only [List.nil_append, List.cons_append]
    rw [quantumBytes_three b0 b1 b2 h0 h1 h2, ih hr]
    simp
  | case2 b0 b1 =>
    have h0 : b0 < 256 := ht b0 (by simp)
    have h1 : b1 < 256 := ht b1 (by simp)
    rw [encodeBase64URL,
      decodeFrom_encodeChar _ (by omega), if_neg (by simp),
      decodeFrom_encodeChar _ (by omega), if_neg (by simp),
      decodeFrom_encodeChar _ (by omega), if_neg (by simp),
      decodeFrom_pad]
    simp only [List.nil_append, List.cons_append]
    rw [decodePadding]
    simp only [List.length_cons, List.length_nil, skipNewlines]
    rw [if_neg (by simp), quantumBytes_two b0 b1 h0 h1]
  | case3 b0 =>
    have h0 : b0 < 256 := ht b0 (by simp)
    rw [encodeBase64URL,
      decodeFrom_encodeChar _ (by omega), if_neg (by simp),
      decodeFrom_encodeChar _ (by omega), if_neg (by simp),
      decodeFrom_pad]
    simp only [List.nil_append, List.cons_append]
    rw [decodePadding]
    simp only [List.length_cons, List.length_nil, skipNewlines]
    norm_num
    rw [quantumBytes_one b0 h0, skipNewlines, if_pos rfl]
  | case4 => 
    rw [encodeBase64URL, decodeFrom]
    simp

/-- C9: round trip: for every byte string `t`, `decodeBase64URL` applied to
the URL-safe base64 encoding of `t` with `=` padding succeeds and returns
exactly `t`. -/
theorem decodeBase64URL_encode (t : List Nat) (ht : IsBytes t) :
    decodeBase64URL (encodeBase64URL t) = .ok t := by
  unfold decodeBase64URL DecodeString
  rw [decodeFrom_encode t ht []]
  rfl

theorem decodeBase64URL_encode_witness :
    decodeBase64URL (encodeBase64URL (str "https://example.com/?q=1")) =
      .ok (str "https://example.com/?q=1") :=
  decodeBase64URL_encode (str "https://example.com/?q=1") (by decide)

/-! ## The decoded text -/

theorem quantumBytes_ne_nil (dbuf : List Nat) (k : Nat) : quantumBytes dbuf (k + 2) ≠ [] := by
  simp [quantumBytes, List.take_succ_cons]

theorem decodePadding_ne_nil {cs : GoString} {dbuf acc out : List Nat}
    (h : decodePadding cs dbuf acc = .ok out) : out ≠ [] := by
  unfold decodePadding at h
  split at h
  · cases h
  · cases h
  · split at h
    · cases h
    · split_ifs at h
      injection h with h
      rw [← h]
      simp [quantumBytes_ne_nil dbuf 0]
  · split_ifs at h
    injection h with h
    rw [← h]
    simp [quantumBytes_ne_nil dbuf 1]

/-- A successful decoding that has read, or still has to read, anything but line
breaks yields at least one byte. -/
theorem decodeFrom_ne_nil (src : GoString) (dbuf acc out : List Nat)
    (h : decodeFrom src dbuf acc = .ok out)
    (hc : acc ≠ [] ∨ dbuf ≠ [] ∨ ∃ c ∈ src, notNewline c) : out ≠ [] := by
  induction src generalizing dbuf acc with
  | nil =>
    rw [decodeFrom] at h
    split_ifs at h with hd
    injection h with h
    subst h
    rcases hc with hc | hc | ⟨c, hc, -⟩
    · exact hc
    · exact absurd hd hc
    · simp at hc
  | cons c cs ih =>
    rw [decodeFrom] at h
    by_cases h1 : decodeMap c ≠ 0xFF
    · rw [if_pos h1] at h
      by_cases h2 : dbuf.length = 3
      · rw [if_pos h2] at h
        exact ih _ _ h (Or.inl (by simp [quantumBytes_ne_nil _ 2]))
      · rw [if_neg h2] at h
        exact ih _ _ h (Or.inr (Or.inl (by simp)))
    · rw [if_neg h1] at h
      by_cases h3 : c = 10 ∨ c = 13
      · rw [if_pos h3] at h
        apply ih _ _ h
        rcases hc with hc | hc | ⟨x, hx, hn⟩
        · exact Or.inl hc
        · exact Or.inr (Or.inl hc)
        · right; right
          rcases List.mem_cons.1 hx with rfl | hx
          · exact absurd h3 hn
          · exact ⟨x, hx, hn⟩
      · rw [if_neg h3] at h
        by_cases h4 : c ≠ 61
        · rw [if_pos h4] at h
          cases h
        · rw [if_neg h4] at h
          exact decodePadding_ne_nil h

/-- C8, as stated, fails: the url parameter `"\n"` (one line feed) is not empty
and decodes without error, to the empty text; the handler hands that empty text
to the encoder (the echoing encoder answers with an empty image). -/
theorem decoded_text_counterexample :
    str "\n" ≠ [] ∧ decodeBase64URL (str "\n") = .ok [] ∧
    generateQRHandler echoEncoder ⟨some (str "\n"), none, none, none⟩
      = .data 200 "image/png" [] := by
  decide

/-- C8 (amended): for every raw url parameter that passes the handler's
validation (it is not empty and `decodeBase64URL` succeeds) and has at least
one byte other than CR and LF, the decoded text handed to the encoder is not
empty. -/
theorem decoded_text_nonempty (url text : GoString) (_hne : url ≠ [])
    (hdec : decodeBase64URL url = .ok text) (hc : ∃ c ∈ url, notNewline c) :
    text ≠ [] := by
  unfold decodeBase64URL DecodeString at hdec
  cases hd : decodeFrom url [] [] with
  | error e => rw [hd] at hdec; cases hdec
  | ok data =>
    rw [hd] at hdec
    injection hdec with hdec
    subst hdec
    exact decodeFrom_ne_nil url [] [] data hd (Or.inr (Or.inr hc))

theorem decoded_text_nonempty_witness :
    decodeBase64URL (str "aGk=") = .ok (str "hi") ∧ str "hi" ≠ [] :=
  ⟨by decide, decoded_text_nonempty (str "aGk=") (str "hi") (by decide) (by decide)
    ⟨97, by decide, by decide⟩⟩

/-! ## Malformed base64 -/

theorem dropNewlines_cons_of_not {c : Nat} (h : ¬ (c = 10 ∨ c = 13)) (cs : GoString) :
    dropNewlines (c :: cs) = c :: dropNewlines cs := by
  unfold dropNewlines
  rw [List.filter_cons_of_pos (by simpa [notNewline] using h)]

theorem dropNewlines_cons_of_newline {c : Nat} (h : c = 10 ∨ c = 13) (cs : GoString) :
    dropNewlines (c :: cs) = dropNewlines cs := by
  unfold dropNewlines
  rw [List.filter_cons_of_neg (by simp only [notNewline, decide_not, Bool.not_eq_true',
    decide_eq_false_iff_not, not_not]; exact h)]

theorem dropNewlines_skipNewlines (s : GoString) :
    dropNewlines (skipNewlines s) = dropNewlines s := by
  induction s with
  | nil => rfl
  | cons c cs ih =>
    rw [skipNewlines]
    by_cases h : c = 10 ∨ c = 13
    · rw [if_pos h, ih, dropNewlines_cons_of_newline h]
    · rw [if_neg h]

theorem dropNewlines_of_skip_nil {s : GoString} (h : skipNewlines s = []) :
    dropNewlines s = [] := by
  rw [← dropNewlines_skipNewlines, h]
  rfl

theorem isAlpha_not_special {c : Nat} (h : isAlpha c) : ¬ (c = 10 ∨ c = 13) ∧ c ≠ 61 := by
  unfold isAlpha at h
  omega

theorem wellPadded_four (a b c d : Nat) (rest : GoString) :
    wellPadded (a :: b :: c :: d :: rest) =
      (decide (isAlpha a) && decide (isAlpha b) &&
        ((decide (isAlpha c) && decide (isAlpha d) && wellPadded rest)
          || (decide (c = 61) && decide (d = 61) && rest.isEmpty)
          || (decide (isAlpha c) && decide (d = 61) && rest.isEmpty))) := by
  rw [wellPadded]

/-- The padding branch succeeds only on correctly padded text. -/
theorem decodePadding_wellPadded {cs : GoString} {dbuf acc out : List Nat}
    (h : decodePadding cs dbuf acc = .ok out) (p : GoString) (hp : p.length = dbuf.length)
    (hl : p.length < 4) (ha : ∀ x ∈ p, isAlpha x) :
    wellPadded (p ++ 61 :: dropNewlines cs) = true := by
  unfold decodePadding at h
  split at h
  · cases h
  · cases h
  · rename_i h2
    split at h
    · cases h
    · rename_i d ds hs
      split_ifs at h with hd hds
      have hd61 : d = 61 := by omega
      subst hd61
      have hds' : skipNewlines ds = [] := by simpa using hds
      have e : dropNewlines cs = [61] := by
        rw [← dropNewlines_skipNewlines cs, hs, dropNewlines_cons_of_not (by omega),
          dropNewlines_of_skip_nil hds']
      rw [e]
      match p, hp, ha with
      | [x, y], _, ha =>
        have hx := ha x (by simp)
        have hy := ha y (by simp)
        simp only [List.cons_append, List.nil_append, wellPadded_four]
        simp [hx, hy]
      | [], hp, _ => simp [h2] at hp
      | [_], hp, _ => simp [h2] at hp
      | _ :: _ :: _ :: _, hp, _ => simp [h2] at hp
  · rename_i n0 n1 n2
    split_ifs at h with hs
    have hs' : skipNewlines cs = [] := by simpa using hs
    rw [dropNewlines_of_skip_nil hs']
    match p, hp, hl, ha with
    | [x, y, z], _, _, ha =>
      have hx := ha x (by simp)
      have hy := ha y (by simp)
      have hz := ha z (by simp)
      simp only [List.cons_append, List.nil_append, wellPadded_four]
      simp [hx, hy, hz]
    | [], hp, _, _ => exact absurd hp.symm n0
    | [_], hp, _, _ => exact absurd hp.symm n1
    | [_, _], hp, _, _ => exact absurd hp.symm n2
    | _ :: _ :: _ :: _ :: _, _, hl, _ => simp only [List.length_cons] at hl; omega

/-- A successful decoding reads correctly padded text: `p` stands for the
characters of the quantum in progress. -/
theorem decodeFrom_wellPadded (src : GoString) (dbuf acc out : List Nat)
    (h : decodeFrom src dbuf acc = .ok out) (p : GoString) (hp : p.length = dbuf.length)
    (hl : p.length < 4) (ha : ∀ x ∈ p, isAlpha x) :
    wellPadded (p ++ dropNewlines src) = true := by
  induction src generalizing dbuf acc p with
  | nil =>
    rw [decodeFrom] at h
    split_ifs at h with hd
    subst hd
    have : p = [] := List.length_eq_zero.1 (by simpa using hp)
    subst this
    rfl
  | cons c cs ih =>
    rw [decodeFrom] at h
    by_cases h1 : decodeMap c ≠ 0xFF
    · rw [if_pos h1] at h
      have hc : isAlpha c := (decodeMap_ne_iff c).1 h1
      rw [dropNewlines_cons_of_not (isAlpha_not_special hc).1]
      by_cases h2 : dbuf.length = 3
      · rw [if_pos h2] at h
        have ih' := ih _ _ h [] rfl (by simp) (by simp)
        simp only [List.nil_append] at ih'
        match p, hp, ha with
        | [x, y, z], _, ha =>
          have hx := ha x (by simp)
          have hy := ha y (by simp)
          have hz := ha z (by simp)
          simp only [List.cons_append, List.nil_append, wellPadded_four]
          simp [hx, hy, hz, hc, ih']
        | [], hp, _ => simp [h2] at hp
        | [_], hp, _ => simp [h2] at hp
        | [_, _], hp, _ => simp [h2] at hp
        | _ :: _ :: _ :: _ :: _, hp, _ => simp [h2] at hp
      · rw [if_neg h2] at h
        have ih' := ih _ _ h (p ++ [c]) (by simp [hp]) (by simp; omega)
          (by
            intro x hx
            rcases List.mem_append.1 hx with hx | hx
            · exact ha x hx
            · simp only [List.mem_singleton] at hx
              subst hx
              exact hc)
        simpa using ih'
    · rw [if_neg h1] at h
      by_cases h3 : c = 10 ∨ c = 13
      · rw [if_pos h3] at h
        rw [dropNewlines_cons_of_newline h3]
        exact ih _ _ h p hp hl ha
      · rw [if_neg h3] at h
        by_cases h4 : c ≠ 61
        · rw [if_pos h4] at h
          cases h
        · rw [if_neg h4] at h
          have e : c = 61 := by omega
          subst e
          rw [dropNewlines_cons_of_not h3]
          exact decodePadding_wellPadded h p hp hl ha

theorem wellPadded_chars (s : GoString) (h : wellPadded s = true) :
    ∀ c ∈ s, isAlpha c ∨ c = 61 := by
  induction s using wellPadded.induct with
  | case1 => simp
  | case2 a b c d rest ih =>
    rw [wellPadded_four] at h
    simp only [Bool.and_eq_true, Bool.or_eq_true, decide_eq_true_eq, List.isEmpty_iff] at h
    obtain ⟨⟨ha, hb⟩, h⟩ := h
    intro x hx
    simp only [List.mem_cons] at hx
    rcases h with (⟨⟨hc, hd⟩, hr⟩ | ⟨⟨hc, hd⟩, hr⟩) | ⟨⟨hc, hd⟩, hr⟩
    · rcases hx with rfl | rfl | rfl | rfl | hx
      · exact Or.inl ha
      · exact Or.inl hb
      · exact Or.inl hc
      · exact Or.inl hd
      · exact ih hr x hx
    · subst hr
      rcases hx with rfl | rfl | rfl | rfl | hx
      · exact Or.inl ha
      · exact Or.inl hb
      · exact Or.inr hc
      · exact Or.inr hd
      · simp at hx
    · subst hr
      rcases hx with rfl | rfl | rfl | rfl | hx
      · exact Or.inl ha
      · exact Or.inl hb
      · exact Or.inl hc
      · exact Or.inr hd
      · simp at hx
  | case3 s h1 h2 =>
    exfalso
    unfold wellPadded at h
    split at h
    · exact h1 rfl
    · exact h2 _ _ _ _ _ rfl
    · cases h

theorem decodeFrom_error_of_not_wellPadded (url : GoString)
    (h : wellPadded (dropNewlines url) = false) : decodeFrom url [] [] = .error () := by
  cases hd : decodeFrom url [] [] with
  | error e => rfl
  | ok out =>
    have := decodeFrom_wellPadded url [] [] out hd [] rfl (by simp) (by simp)
    simp only [List.nil_append] at this
    rw [this] at h
    cases h

theorem not_wellPadded_of_foreign (url : GoString) (h : ∃ c ∈ url, isForeign c) :
    wellPadded (dropNewlines url) = false := by
  obtain ⟨c, hc, hf⟩ := h
  unfold isForeign at hf
  have hmem : c ∈ dropNewlines url := by
    unfold dropNewlines
    rw [List.mem_filter]
    refine ⟨hc, ?_⟩
    simp only [notNewline, decide_eq_true_eq]
    intro hn
    exact hf (Or.inr (Or.inr hn))
  cases hw : wellPadded (dropNewlines url) with
  | false => rfl
  | true =>
    exfalso
    rcases wellPadded_chars _ hw c hmem with h1 | h1
    · exact hf (Or.inl h1)
    · exact hf (Or.inr (Or.inl h1))

/-- C10: malformed base64 is rejected: for every non-empty url parameter that
has a byte outside the URL-safe alphabet, `=`, CR and LF, or whose padding is
missing or misplaced, `decodeBase64URL` returns an error and the handler
answers 400 with "invalid url parameter", whatever the other parameters are. -/
theorem malformed_url_rejected {QR : Type} (env : Env QR) (q : Query) (url : GoString)
    (hu : q.url = some url) (hne : url ≠ [])
    (hbad : (∃ c ∈ url, isForeign c) ∨ wellPadded (dropNewlines url) = false) :
    decodeBase64URL url = .error () ∧ generateQRHandler env q = .json 400 errURL := by
  have hw : wellPadded (dropNewlines url) = false := by
    rcases hbad with h | h
    · exact not_wellPadded_of_foreign url h
    · exact h
  have hd : decodeBase64URL url = .error () := by
    unfold decodeBase64URL DecodeString
    rw [decodeFrom_error_of_not_wellPadded url hw]
  refine ⟨hd, ?_⟩
  unfold generateQRHandler
  simp only [hu, getQuery, Option.getD_some, hne, if_false, hd, errURL]

theorem malformed_url_rejected_witness :
    decodeBase64URL (str "!!!") = .error () ∧
    generateQRHandler echoEncoder
      ⟨some (str "!!!"), some (str "H"), some (str "4096"), some (str "zz")⟩
      = .json 400 errURL :=
  malformed_url_rejected echoEncoder
    ⟨some (str "!!!"), some (str "H"), some (str "4096"), some (str "zz")⟩ (str "!!!")
    rfl (by decide) (Or.inl ⟨33, by decide, by decide⟩)

/-! ## `hexToRGB` is total -/

theorem fmtC_length_pos (b : Nat) : 1 ≤ (fmtC b).length := by
  unfold fmtC
  split_ifs <;> simp

theorem expandHex_length {h hex : GoString} (he : expandHex h = some hex) :
    6 ≤ hex.length := by
  unfold expandHex at he
  split at he
  · rename_i h0 h1 h2
    injection he with he
    rw [← he]
    have a0 := fmtC_length_pos h0
    have a1 := fmtC_length_pos h1
    have a2 := fmtC_length_pos h2
    simp only [List.length_append]
    omega
  · injection he with he
    rw [← he]
    simp
  · cases he

theorem slice_isSome {s : GoString} {lo hi : Nat} (h1 : lo ≤ hi) (h2 : hi ≤ s.length) :
    (slice s lo hi).isSome = true := by
  unfold slice
  rw [if_pos ⟨h1, h2⟩]
  rfl

theorem parsePair_ne_outOfRange (hex : GoString) (lo hi : Nat) (msg : String)
    (k : Nat → Outcome (Int × Int × Int)) (h1 : lo ≤ hi) (h2 : hi ≤ hex.length)
    (hk : ∀ v, k v ≠ .outOfRange) : parsePair hex lo hi msg k ≠ .outOfRange := by
  unfold parsePair slice
  rw [if_pos ⟨h1, h2⟩]
  simp only
  split
  · intro h; cases h
  · exact hk _

theorem parseComponents_ne_outOfRange (hex : GoString) (h : 6 ≤ hex.length) :
    parseComponents hex ≠ .outOfRange := by
  unfold parseComponents
  apply parsePair_ne_outOfRange _ _ _ _ _ (by omega) (by omega)
  intro r
  apply parsePair_ne_outOfRange _ _ _ _ _ (by omega) (by omega)
  intro g
  apply parsePair_ne_outOfRange _ _ _ _ _ (by omega) (by omega)
  intro b h
  cases h

theorem hexToRGB_ne_outOfRange (tok : GoString) : hexToRGB tok ≠ .outOfRange := by
  rw [hexToRGB_eq]
  cases he : expandHex (dropLeadingHash tok) with
  | none => intro h; cases h
  | some hex => exact parseComponents_ne_outOfRange hex (expandHex_length he)

/-- C17: `hexToRGB` is total: for every input byte string (3-byte tokens with
non-ASCII bytes, whose `%c` expansion is longer than 6 bytes, and invalid UTF-8
included) the slices `hex[0:2]`, `hex[2:4]` and `hex[4:6]` are within bounds, so
the function returns a triple or an error and never panics. -/
theorem hexToRGB_total (tok : GoString) :
    (∀ hex, expandHex (TrimPrefix tok (str "#")) = some hex →
      6 ≤ hex.length ∧ (slice hex 0 2).isSome = true ∧ (slice hex 2 4).isSome = true ∧
        (slice hex 4 6).isSome = true) ∧
    hexToRGB tok ≠ .outOfRange ∧
    ((∃ rgb, hexToRGB tok = .ok rgb) ∨ ∃ msg, hexToRGB tok = .error msg) := by
  refine ⟨?_, hexToRGB_ne_outOfRange tok, ?_⟩
  · intro hex he
    have hl := expandHex_length he
    exact ⟨hl, slice_isSome (by omega) (by omega), slice_isSome (by omega) (by omega),
      slice_isSome (by omega) (by omega)⟩
  · cases h : hexToRGB tok with
    | ok rgb => exact Or.inl ⟨rgb, rfl⟩
    | error msg => exact Or.inr ⟨msg, rfl⟩
    | outOfRange => exact absurd h (hexToRGB_ne_outOfRange tok)

theorem hexToRGB_total_witness :
    (12 ≤ (fmtC 0xE2 ++ fmtC 0xE2 ++ fmtC 0x82 ++ fmtC 0x82 ++ fmtC 0xAC ++ fmtC 0xAC).length) ∧
    hexToRGB [0xE2, 0x82, 0xAC] ≠ .outOfRange ∧ hexToRGB [0xFF, 0xFE, 0x80] ≠ .outOfRange :=
  ⟨by decide, (hexToRGB_total [0xE2, 0x82, 0xAC]).2.1, (hexToRGB_total [0xFF, 0xFE, 0x80]).2.1⟩

/-! ## Shorthand colours -/

theorem isHexDigit_ascii {c : Nat} (h : isHexDigit c) : c < 128 ∧ c ≠ 35 := by
  unfold isHexDigit at h
  omega

theorem hexToRGB_three_hex (x y z : Nat) (hx : isHexDigit x) (hy : isHexDigit y)
    (hz : isHexDigit z) :
    hexToRGB [x, y, z] =
      .ok (17 * (hexValue x : Int), 17 * (hexValue y : Int), 17 * (hexValue z : Int)) := by
  have hs : ¬ startsWithHash [x, y, z] := by
    simpa [startsWithHash] using (isHexDigit_ascii hx).2
  rw [hexToRGB_eq, dropLeadingHash_of_not hs]
  simp only [expandHex, fmtC_ascii (isHexDigit_ascii hx).1, fmtC_ascii (isHexDigit_ascii hy).1,
    fmtC_ascii (isHexDigit_ascii hz).1, List.cons_append, List.nil_append]
  rw [parseComponents_six, if_pos ⟨hx, hx⟩, if_pos ⟨hy, hy⟩, if_pos ⟨hz, hz⟩,
    int_byte hx hx, int_byte hy hy, int_byte hz hz]
  congr 1
  push_cast
  refine Prod.ext ?_ (Prod.ext ?_ ?_) <;> simp only <;> ring

/-- C18: for every 3-digit shorthand token of hexadecimal digits `x y z`,
`hexToRGB` returns `(17*v(x), 17*v(y), 17*v(z))` with `v` the digit value
`0..15` (also behind a leading `#`); a shorthand component is one of the 16
values `0, 17, ..., 255`. -/
theorem hexToRGB_shorthand_values (x y z : Nat) (hx : isHexDigit x) (hy : isHexDigit y)
    (hz : isHexDigit z) :
    hexToRGB [x, y, z] =
      .ok (17 * (hexValue x : Int), 17 * (hexValue y : Int), 17 * (hexValue z : Int)) ∧
    hexToRGB (str "#" ++ [x, y, z]) = hexToRGB [x, y, z] ∧
    hexValue x < 16 ∧ hexValue y < 16 ∧ hexValue z < 16 ∧
    (∀ r g b : Int, hexToRGB [x, y, z] = .ok (r, g, b) →
      (∃ i : Nat, i < 16 ∧ r = 17 * i) ∧ (∃ i : Nat, i < 16 ∧ g = 17 * i) ∧
        (∃ i : Nat, i < 16 ∧ b = 17 * i)) := by
  have key := hexToRGB_three_hex x y z hx hy hz
  have vx := (digitVal_hex hx).2
  have vy := (digitVal_hex hy).2
  have vz := (digitVal_hex hz).2
  refine ⟨key, ?_, vx, vy, vz, ?_⟩
  · have hs : ¬ startsWithHash [x, y, z] := by
      simpa [startsWithHash] using (isHexDigit_ascii hx).2
    rw [str_hash, hexToRGB_eq, hexToRGB_eq, dropLeadingHash_of_not hs]
    rfl
  · intro r g b h
    rw [key] at h
    injection h with h
    injection h with h1 h
    injection h with h2 h3
    exact ⟨⟨_, vx, h1.symm⟩, ⟨_, vy, h2.symm⟩, ⟨_, vz, h3.symm⟩⟩

theorem hexToRGB_shorthand_values_witness :
    hexToRGB (str "f0a") = .ok (255, 0, 170) :=
  (hexToRGB_shorthand_values 102 48 97 (by decide) (by decide) (by decide)).1

/-! ## The stages of `generateQRHandler` -/

theorem generateQRHandler_no_url {QR : Type} (env : Env QR) (q : Query)
    (h : getQuery q.url = []) : generateQRHandler env q = .json 400 errRequired := by
  unfold generateQRHandler
  simp only [h, if_true, errRequired]

theorem generateQRHandler_bad_url {QR : Type} (env : Env QR) (q : Query)
    (hne : getQuery q.url ≠ []) (e : Unit) (hdec : decodeBase64URL (getQuery q.url) = .error e) :
    generateQRHandler env q = .json 400 errURL := by
  unfold generateQRHandler
  simp only [hne, if_false, hdec, errURL]

/-- The handler after the url checks. -/
theorem generateQRHandler_of_text {QR : Type} (env : Env QR) (q : Query) (text : GoString)
    (hne : getQuery q.url ≠ []) (hdec : decodeBase64URL (getQuery q.url) = .ok text) :
    generateQRHandler env q =
      match Atoi (DefaultQuery q.size (str "256")) with
      | .error _ => .json 400 errSize
      | .ok size =>
        if size ≤ 0 ∨ size > 2048 then .json 400 errSize
        else
          match hexToRGB (DefaultQuery q.color (str "000000")) with
          | .outOfRange => .panicked
          | .error msg => .json 400 msg
          | .ok (r, g, b) =>
            match env.new text (qrLevel env (DefaultQuery q.level (str "L"))) with
            | .error _ => .json 500 "failed to generate QR code"
            | .ok qr =>
              match env.write qr Color.White (.rgba (uint8 r) (uint8 g) (uint8 b) 255) size with
              | .error _ => .json 500 "failed to encode QR code"
              | .ok png => .data 200 "image/png" png := by
  unfold generateQRHandler
  simp only [hne, if_false, hdec, errSize]

theorem Atoi_ok_of_parseDecimal {s : GoString} (hb : IsBytes s) {n : Int}
    (h : parseDecimal s = some n) (h1 : 1 ≤ n) (h2 : n ≤ 2048) : Atoi s = .ok n := by
  have hs := Atoi_spec s hb
  have hd : decimalInt s = some n := by
    unfold decimalInt
    rw [h]
    have : inInt64 n := by
      unfold inInt64
      constructor <;> push_cast <;> omega
    simp only [this, if_true]
  rw [hd] at hs
  cases hA : Atoi s with
  | error e => rw [hA] at hs; cases hs
  | ok m =>
    rw [hA] at hs
    simp only [Except.toOption, Option.some.injEq] at hs
    rw [hs]

theorem parseDecimal_of_Atoi_ok {s : GoString} (hb : IsBytes s) {n : Int}
    (h : Atoi s = .ok n) : parseDecimal s = some n := by
  have hs := Atoi_spec s hb
  rw [h] at hs
  simp only [Except.toOption] at hs
  unfold decimalInt at hs
  cases hp : parseDecimal s with
  | none => rw [hp] at hs; cases hs
  | some m =>
    rw [hp] at hs
    simp only at hs
    split_ifs at hs
    injection hs with hs
    rw [hs]

/-- The size check, in the vocabulary of the specification. -/
theorem generateQRHandler_bad_size {QR : Type} (env : Env QR) (q : Query) (text : GoString)
    (hne : getQuery q.url ≠ []) (hdec : decodeBase64URL (getQuery q.url) = .ok text)
    (hb : IsBytes (DefaultQuery q.size (str "256")))
    (hs : ¬ sizeInRange (DefaultQuery q.size (str "256"))) :
    generateQRHandler env q = .json 400 errSize := by
  rw [generateQRHandler_of_text env q text hne hdec]
  cases hA : Atoi (DefaultQuery q.size (str "256")) with
  | error e => rfl
  | ok size =>
    simp only
    by_cases hr : size ≤ 0 ∨ size > 2048
    · rw [if_pos hr]
    · exfalso
      apply hs
      unfold sizeInRange
      rw [parseDecimal_of_Atoi_ok hb hA]
      simp only
      omega

/-- The handler after the url and size checks. -/
theorem generateQRHandler_of_size {QR : Type} (env : Env QR) (q : Query) (text : GoString)
    (size : Int) (hne : getQuery q.url ≠ [])
    (hdec : decodeBase64URL (getQuery q.url) = .ok text)
    (hb : IsBytes (DefaultQuery q.size (str "256")))
    (hp : parseDecimal (DefaultQuery q.size (str "256")) = some size)
    (h1 : 1 ≤ size) (h2 : size ≤ 2048) :
    generateQRHandler env q =
      match hexToRGB (DefaultQuery q.color (str "000000")) with
      | .outOfRange => .panicked
      | .error msg => .json 400 msg
      | .ok rgb =>
        match render env text (DefaultQuery q.level (str "L")) size rgb with
        | .error _ =>
          .json 500 (match env.new text (qrLevel env (DefaultQuery q.level (str "L"))) with
            | .error _ => "failed to generate QR code"
            | .ok _ => "failed to encode QR code")
        | .ok png => .data 200 "image/png" png := by
  rw [generateQRHandler_of_text env q text hne hdec, Atoi_ok_of_parseDecimal hb hp h1 h2]
  simp only
  rw [if_neg (by omega)]
  cases hc : hexToRGB (DefaultQuery q.color (str "000000")) with
  | outOfRange => rfl
  | error msg => rfl
  | ok rgb =>
    obtain ⟨r, g, b⟩ := rgb
    simp only [render]
    cases hn : env.new text (qrLevel env (DefaultQuery q.level (str "L"))) with
    | error e => rfl
    | ok qr => simp only

/-! ## The components are 8-bit values -/

theorem parseUintLoop_le (base cutoff maxVal : Nat) (s : GoString) (n v : Nat)
    (hn : n ≤ maxVal) (h : parseUintLoop base cutoff maxVal s n = .ok v) : v ≤ maxVal := by
  induction s generalizing n with
  | nil =>
    rw [parseUintLoop] at h
    injection h with h
    omega
  | cons c cs ih =>
    rw [parseUintLoop] at h
    split at h
    · cases h
    · simp only at h
      split_ifs at h with h1 h2 h3
      exact ih _ (by omega) h

theorem ParseUint_eight_le (s : GoString) (v : Nat) (h : ParseUint s 16 8 = .ok v) :
    v ≤ 255 := by
  unfold ParseUint at h
  rw [if_neg (by omega : ¬ (8 = 0))] at h
  split_ifs at h
  have := parseUintLoop_le _ _ _ s 0 v (Nat.zero_le _) h
  norm_num at this
  exact this

theorem parsePair_ok {hex : GoString} {lo hi : Nat} {msg : String}
    {k : Nat → Outcome (Int × Int × Int)} {x : Int × Int × Int}
    (h : parsePair hex lo hi msg k = .ok x) : ∃ v, v ≤ 255 ∧ k v = .ok x := by
  unfold parsePair at h
  split at h
  · cases h
  · rename_i p hp
    split at h
    · cases h
    · rename_i v hv
      exact ⟨v, ParseUint_eight_le p v hv, h⟩

theorem int_of_small {v : Nat} (h : v ≤ 255) : int v = (v : Int) := by
  unfold int
  rw [if_pos (by omega)]

/-- Every triple returned by `hexToRGB` has its components within `[0,255]`. -/
theorem hexToRGB_range {tok : GoString} {r g b : Int} (h : hexToRGB tok = .ok (r, g, b)) :
    0 ≤ r ∧ r ≤ 255 ∧ 0 ≤ g ∧ g ≤ 255 ∧ 0 ≤ b ∧ b ≤ 255 := by
  rw [hexToRGB_eq] at h
  split at h
  · cases h
  · unfold parseComponents at h
    obtain ⟨vr, hr, h⟩ := parsePair_ok h
    obtain ⟨vg, hg, h⟩ := parsePair_ok h
    obtain ⟨vb, hb, h⟩ := parsePair_ok h
    injection h with h
    injection h with h1 h
    injection h with h2 h3
    rw [int_of_small hr] at h1
    rw [int_of_small hg] at h2
    rw [int_of_small hb] at h3
    omega

theorem uint8_of_range {i : Int} (h0 : 0 ≤ i) (h1 : i ≤ 255) : ((uint8 i : Nat) : Int) = i := by
  unfold uint8
  omega

/-! ## Requests: the claims -/

/-- C11: when the url parameter is absent or empty, the handler answers 400
with the error "url parameter is required" for every combination of the level,
size and color parameters; the encoder has no part in the answer (it is the
same with every encoder). -/
theorem missing_url_rejected {QR : Type} (env : Env QR) (url : Option GoString)
    (hu : url = none ∨ url = some []) (level size color : Option GoString) :
    generateQRHandler env ⟨url, level, size, color⟩ = .json 400 "url parameter is required" ∧
    ∀ {QR' : Type} (env' : Env QR'),
      generateQRHandler env' ⟨url, level, size, color⟩
        = generateQRHandler env ⟨url, level, size, color⟩ := by
  have h : getQuery (Query.url ⟨url, level, size, color⟩) = [] := by
    rcases hu with h | h <;> subst h <;> rfl
  refine ⟨generateQRHandler_no_url env _ h, ?_⟩
  intro QR' env'
  rw [generateQRHandler_no_url env _ h, generateQRHandler_no_url env' _ h]

theorem missing_url_rejected_witness :
    generateQRHandler echoEncoder ⟨none, some (str "H"), some (str "0"), some (str "zz")⟩
      = .json 400 "url parameter is required" :=
  (missing_url_rejected echoEncoder none (Or.inl rfl) (some (str "H")) (some (str "0"))
    (some (str "zz"))).1

/-- The handler on a request that passes validation. -/
theorem generateQRHandler_validated {QR : Type} (env : Env QR) (q : Query) (text : GoString)
    (size : Int) (rgb : Int × Int × Int)
    (hb : IsBytes (DefaultQuery q.size (str "256"))) (hv : validated q text size rgb) :
    generateQRHandler env q =
      match render env text (DefaultQuery q.level (str "L")) size rgb with
      | .error _ =>
        .json 500 (match env.new text (qrLevel env (DefaultQuery q.level (str "L"))) with
          | .error _ => "failed to generate QR code"
          | .ok _ => "failed to encode QR code")
      | .ok png => .data 200 "image/png" png := by
  obtain ⟨hne, hdec, hp, h1, h2, hc⟩ := hv
  rw [generateQRHandler_of_size env q text size hne hdec hb hp h1 h2, hc]

/-- The handler on a request that does not pass validation. -/
theorem generateQRHandler_invalid {QR : Type} (env : Env QR) (q : Query)
    (hb : IsBytes (DefaultQuery q.size (str "256"))) (hnv : ¬ validationPasses q) :
    ∃ msg, generateQRHandler env q = .json 400 msg := by
  by_cases hne : getQuery q.url = []
  · exact ⟨_, generateQRHandler_no_url env q hne⟩
  · cases hdec : decodeBase64URL (getQuery q.url) with
    | error e => exact ⟨_, generateQRHandler_bad_url env q hne e hdec⟩
    | ok text =>
      by_cases hs : sizeInRange (DefaultQuery q.size (str "256"))
      · unfold sizeInRange at hs
        cases hp : parseDecimal (DefaultQuery q.size (str "256")) with
        | none => rw [hp] at hs; exact absurd hs id
        | some size =>
          rw [hp] at hs
          simp only at hs
          have hh := generateQRHandler_of_size env q text size hne hdec hb hp hs.1 hs.2
          cases hc : hexToRGB (DefaultQuery q.color (str "000000")) with
          | outOfRange => exact absurd hc (hexToRGB_ne_outOfRange _)
          | error msg =>
            rw [hc] at hh
            exact ⟨msg, hh⟩
          | ok rgb =>
            exact absurd ⟨text, size, rgb, hne, hdec, hp, hs.1, hs.2, hc⟩ hnv
      · exact ⟨_, generateQRHandler_bad_size env q text hne hdec hb hs⟩

/-- C12: status-code contract of the handler, the encoder and the PNG writer
being functions that may fail: the response is 400 with a JSON error exactly
when a validation step fails; it is 500 with a JSON error exactly when
validation passes and the encoder or the writer returns an error; otherwise it
is 200 with content type `image/png` and exactly the bytes the writer
produced. -/
theorem status_contract {QR : Type} (env : Env QR) (q : Query)
    (hb : IsBytes (DefaultQuery q.size (str "256"))) :
    ((∃ msg, generateQRHandler env q = .json 400 msg) ↔ ¬ validationPasses q) ∧
    ((∃ msg, generateQRHandler env q = .json 500 msg) ↔
      ∃ text size rgb, validated q text size rgb ∧
        ∃ e, render env text (DefaultQuery q.level (str "L")) size rgb = .error e) ∧
    (∀ png, generateQRHandler env q = .data 200 "image/png" png ↔
      ∃ text size rgb, validated q text size rgb ∧
        render env text (DefaultQuery q.level (str "L")) size rgb = .ok png) ∧
    ((∃ msg, generateQRHandler env q = .json 400 msg) ∨
      (∃ msg, generateQRHandler env q = .json 500 msg) ∨
      (∃ png, generateQRHandler env q = .data 200 "image/png" png)) := by
  by_cases hv : validationPasses q
  · obtain ⟨text, size, rgb, hval⟩ := hv
    have hh := generateQRHandler_validated env q text size rgb hb hval
    cases hr : render env text (DefaultQuery q.level (str "L")) size rgb with
    | error e =>
      rw [hr] at hh
      simp only at hh
      refine ⟨?_, ?_, ?_, ?_⟩
      · constructor
        · rintro ⟨msg, hm⟩
          rw [hh] at hm
          simp at hm
        · intro hn
          exact absurd ⟨text, size, rgb, hval⟩ hn
      · constructor
        · intro _
          exact ⟨text, size, rgb, hval, e, hr⟩
        · intro _
          exact ⟨_, hh⟩
      · intro png
        constructor
        · intro hp
          rw [hh] at hp
          cases hp
        · rintro ⟨t', s', c', hv', hr'⟩
          have hh' := generateQRHandler_validated env q t' s' c' hb hv'
          rw [hr'] at hh'
          rw [hh] at hh'
          cases hh'
      · exact Or.inr (Or.inl ⟨_, hh⟩)
    | ok png =>
      rw [hr] at hh
      simp only at hh
      refine ⟨?_, ?_, ?_, ?_⟩
      · constructor
        · rintro ⟨msg, hm⟩
          rw [hh] at hm
          cases hm
        · intro hn
          exact absurd ⟨text, size, rgb, hval⟩ hn
      · constructor
        · rintro ⟨msg, hm⟩
          rw [hh] at hm
          cases hm
        · rintro ⟨t', s', c', hv', e, hr'⟩
          have hh' := generateQRHandler_validated env q t' s' c' hb hv'
          rw [hr'] at hh'
          rw [hh] at hh'
          cases hh'
      · intro png'
        constructor
        · intro hp
          rw [hh] at hp
          injection hp with _ _ hp
          subst hp
          exact ⟨text, size, rgb, hval, hr⟩
        · rintro ⟨t', s', c', hv', hr'⟩
          have hh' := generateQRHandler_validated env q t' s' c' hb hv'
          rw [hr'] at hh'
          exact hh'
      · exact Or.inr (Or.inr ⟨_, hh⟩)
  · obtain ⟨msg, hm⟩ := generateQRHandler_invalid env q hb hv
    refine ⟨?_, ?_, ?_, ?_⟩
    · exact ⟨fun _ => hv, fun _ => ⟨msg, hm⟩⟩
    · constructor
      · rintro ⟨m', hm'⟩
        rw [hm] at hm'
        simp at hm'
      · rintro ⟨t', s', c', hv', _⟩
        exact absurd ⟨t', s', c', hv'⟩ hv
    · intro png
      constructor
      · intro hp
        rw [hm] at hp
        cases hp
      · rintro ⟨t', s', c', hv', _⟩
        exact absurd ⟨t', s', c', hv'⟩ hv
    · exact Or.inl ⟨msg, hm⟩

theorem status_contract_witness :
    generateQRHandler echoEncoder ⟨some (str "aGk="), some (str "q"), some (str "64"), none⟩
      = .data 200 "image/png" (str "hi") ∧
    ∃ msg, generateQRHandler echoEncoder ⟨some (str "aGk="), none, none, some (str "12345")⟩
      = .json 400 msg :=
  ⟨((status_contract echoEncoder ⟨some (str "aGk="), some (str "q"), some (str "64"), none⟩
      (by decide)).2.2.1 (str "hi")).2
      ⟨str "hi", 64, (0, 0, 0), ⟨by decide, by decide, by decide, by decide, by decide,
        by decide⟩, rfl⟩,
   (status_contract echoEncoder ⟨some (str "aGk="), none, none, some (str "12345")⟩
      (by decide)).1.2 (by
        rintro ⟨t, s, c, -, -, -, -, -, hc⟩
        revert hc
        generalize c = c'
        intro hc
        have : hexToRGB (str "12345") = .error errFormat := by decide
        rw [show DefaultQuery (Query.color ⟨some (str "aGk="), none, none, some (str "12345")⟩)
          (str "000000") = str "12345" from rfl, this] at hc
        cases hc)⟩

/-- C16: for every request that passes validation, the colours handed to the
rasterizer are white for the background and, for the foreground, the opaque
colour `(r, g, b, 255)` with `(r, g, b)` the triple `hexToRGB` returned for the
color parameter (the conversion `uint8` loses nothing, the components being
within `[0,255]`); when the color parameter is absent the foreground is pure
black `(0, 0, 0, 255)`. -/
theorem foreground_colour {QR : Type} (env : Env QR) (q : Query) (text : GoString)
    (size r g b : Int) (hb : IsBytes (DefaultQuery q.size (str "256")))
    (hv : validated q text size (r, g, b)) :
    (0 ≤ r ∧ r ≤ 255 ∧ 0 ≤ g ∧ g ≤ 255 ∧ 0 ≤ b ∧ b ≤ 255) ∧
    ((uint8 r : Int) = r ∧ (uint8 g : Int) = g ∧ (uint8 b : Int) = b) ∧
    generateQRHandler env q =
      (match env.new text (qrLevel env (DefaultQuery q.level (str "L"))) with
        | .error _ => .json 500 "failed to generate QR code"
        | .ok qr =>
          match env.write qr (.gray16 0xffff) (.rgba r.toNat g.toNat b.toNat 255) size with
          | .error _ => .json 500 "failed to encode QR code"
          | .ok png => .data 200 "image/png" png) ∧
    (q.color = none → (r, g, b) = (0, 0, 0) ∧
      Color.rgba r.toNat g.toNat b.toNat 255 = Color.rgba 0 0 0 255) := by
  have hrange := hexToRGB_range hv.2.2.2.2.2
  obtain ⟨r0, r1, g0, g1, b0, b1⟩ := hrange
  have er := uint8_of_range r0 r1
  have eg := uint8_of_range g0 g1
  have eb := uint8_of_range b0 b1
  refine ⟨⟨r0, r1, g0, g1, b0, b1⟩, ⟨er, eg, eb⟩, ?_, ?_⟩
  · obtain ⟨hne, hdec, hp, h1, h2, hc⟩ := hv
    rw [generateQRHandler_of_text env q text hne hdec, Atoi_ok_of_parseDecimal hb hp h1 h2]
    simp only
    rw [if_neg (by omega), hc]
    have nr : uint8 r = r.toNat := by omega
    have ng : uint8 g = g.toNat := by omega
    have nb : uint8 b = b.toNat := by omega
    simp only [nr, ng, nb, Color.White]
  · intro hnone
    have hc := hv.2.2.2.2.2
    rw [hnone] at hc
    have hblack : hexToRGB (DefaultQuery none (str "000000")) = .ok (0, 0, 0) := by decide
    rw [hblack] at hc
    injection hc with hc
    simp only [Prod.mk.injEq] at hc
    obtain ⟨h1, h2, h3⟩ := hc
    subst h1 h2 h3
    exact ⟨rfl, rfl⟩

theorem foreground_colour_witness :
    generateQRHandler echoEncoder ⟨some (str "aGk="), none, none, some (str "#ff8000")⟩ =
      (match echoEncoder.new (str "hi") (qrLevel echoEncoder (str "L")) with
        | .error _ => .json 500 "failed to generate QR code"
        | .ok qr =>
          match echoEncoder.write qr (.gray16 0xffff) (.rgba 255 128 0 255) 256 with
          | .error _ => .json 500 "failed to encode QR code"
          | .ok png => .data 200 "image/png" png) :=
  (foreground_colour echoEncoder ⟨some (str "aGk="), none, none, some (str "#ff8000")⟩
    (str "hi") 256 255 128 0 (by decide)
    ⟨by decide, by decide, by decide, by decide, by decide, by decide⟩).2.2.1

/-- C19: validation precedence of the handler is url missing, then base64
decoding, then size, then colour: the response carries the error of the first
failing step whatever the later parameters are, and the level parameter never
changes a validation error. -/
theorem validation_precedence {QR : Type} (env : Env QR) (q : Query)
    (hb : IsBytes (DefaultQuery q.size (str "256"))) :
    (getQuery q.url = [] → generateQRHandler env q = .json 400 "url parameter is required") ∧
    (getQuery q.url ≠ [] → (∃ e, decodeBase64URL (getQuery q.url) = .error e) →
      generateQRHandler env q = .json 400 "invalid url parameter") ∧
    (getQuery q.url ≠ [] → (∃ text, decodeBase64URL (getQuery q.url) = .ok text) →
      ¬ sizeInRange (DefaultQuery q.size (str "256")) →
      generateQRHandler env q = .json 400 "invalid size parameter (max 2048)") ∧
    (getQuery q.url ≠ [] → (∃ text, decodeBase64URL (getQuery q.url) = .ok text) →
      sizeInRange (DefaultQuery q.size (str "256")) →
      ∀ msg, hexToRGB (DefaultQuery q.color (str "000000")) = .error msg →
      generateQRHandler env q = .json 400 msg) ∧
    (∀ msg, generateQRHandler env q = .json 400 msg →
      ∀ level : Option GoString, generateQRHandler env { q with level := level } = .json 400 msg) ∧
    generateQRHandler env ⟨some (str "aGk="), q.level, some (str "4096"), some (str "zz")⟩
      = .json 400 "invalid size parameter (max 2048)" ∧
    generateQRHandler env ⟨some (str "!!!"), q.level, some (str "4096"), some (str "000000")⟩
      = .json 400 "invalid url parameter" := by
  have hcolor : ∀ (q' : Query), IsBytes (DefaultQuery q'.size (str "256")) →
      getQuery q'.url ≠ [] → (∃ text, decodeBase64URL (getQuery q'.url) = .ok text) →
      sizeInRange (DefaultQuery q'.size (str "256")) →
      ∀ msg, hexToRGB (DefaultQuery q'.color (str "000000")) = .error msg →
      generateQRHandler env q' = .json 400 msg := by
    intro q' hb' hne hdec hs msg hc
    obtain ⟨text, hdec⟩ := hdec
    unfold sizeInRange at hs
    cases hp : parseDecimal (DefaultQuery q'.size (str "256")) with
    | none => rw [hp] at hs; exact absurd hs id
    | some size =>
      rw [hp] at hs
      simp only at hs
      rw [generateQRHandler_of_size env q' text size hne hdec hb' hp hs.1 hs.2, hc]
  refine ⟨?_, ?_, ?_, hcolor q hb, ?_, ?_, ?_⟩
  · exact generateQRHandler_no_url env q
  · rintro hne ⟨e, hdec⟩
    exact generateQRHandler_bad_url env q hne e hdec
  · rintro hne ⟨text, hdec⟩ hs
    exact generateQRHandler_bad_size env q text hne hdec hb hs
  · intro msg hm level
    by_cases hne : getQuery q.url = []
    · rw [generateQRHandler_no_url env q hne] at hm
      rw [← hm]
      exact generateQRHandler_no_url env { q with level := level } hne
    · cases hdec : decodeBase64URL (getQuery q.url) with
      | error e =>
        rw [generateQRHandler_bad_url env q hne e hdec] at hm
        rw [← hm]
        exact generateQRHandler_bad_url env { q with level := level } hne e hdec
      | ok text =>
        by_cases hs : sizeInRange (DefaultQuery q.size (str "256"))
        · cases hc : hexToRGB (DefaultQuery q.color (str "000000")) with
          | outOfRange => exact absurd hc (hexToRGB_ne_outOfRange _)
          | error m =>
            rw [hcolor q hb hne ⟨text, hdec⟩ hs m hc] at hm
            rw [← hm]
            exact hcolor { q with level := level } hb hne ⟨text, hdec⟩ hs m hc
          | ok rgb =>
            exfalso
            unfold sizeInRange at hs
            cases hp : parseDecimal (DefaultQuery q.size (str "256")) with
            | none => rw [hp] at hs; exact hs
            | some size =>
              rw [hp] at hs
              simp only at hs
              have hh := generateQRHandler_validated env q text size rgb hb
                ⟨hne, hdec, hp, hs.1, hs.2, hc⟩
              rw [hh] at hm
              split at hm <;> simp at hm
        · rw [generateQRHandler_bad_size env q text hne hdec hb hs] at hm
          rw [← hm]
          exact generateQRHandler_bad_size env { q with level := level } text hne hdec hb hs
  · exact generateQRHandler_bad_size env _ (str "hi")
      (by show str "aGk=" ≠ []; decide)
      (by show decodeBase64URL (str "aGk=") = .ok (str "hi"); decide)
      (by show IsBytes (str "4096"); decide)
      (by show ¬ sizeInRange (str "4096"); decide)
  · exact generateQRHandler_bad_url env _ (by show str "!!!" ≠ []; decide) ()
      (by show decodeBase64URL (str "!!!") = .error (); decide)

theorem validation_precedence_witness :
    generateQRHandler echoEncoder ⟨some (str "aGk="), some (str "H"), some (str "0"),
      some (str "zz")⟩ = .json 400 "invalid size parameter (max 2048)" :=
  (validation_precedence echoEncoder
    ⟨some (str "aGk="), some (str "H"), some (str "0"), some (str "zz")⟩ (by decide)).2.2.1
    (by decide) ⟨str "hi", by decide⟩ (by decide)

/-! ## Generation -/

theorem HasSuffix_iff (s suffix : GoString) : HasSuffix s suffix = true ↔ suffix <:+ s := by
  unfold HasSuffix
  exact List.isSuffixOf_iff_suffix

/-- Two of the suffixes of `getContentType` cannot end the same name. -/
theorem suffix_exclusive {a b name : GoString} (ha : a <:+ name) (hb : b <:+ name)
    (hab : a.isSuffixOf b = false) (hba : b.isSuffixOf a = false) : False := by
  rcases List.suffix_or_suffix_of_suffix ha hb with h | h
  · rw [← List.isSuffixOf_iff_suffix, hab] at h
    cases h
  · rw [← List.isSuffixOf_iff_suffix, hba] at h
    cases h

theorem getContentType_eq (name : GoString) :
    getContentType name =
      if str ".css" <:+ name then "text/css; charset=utf-8"
      else if str ".js" <:+ name then "application/javascript; charset=utf-8"
      else if str ".png" <:+ name then "image/png"
      else if str ".jpg" <:+ name ∨ str ".jpeg" <:+ name then "image/jpeg"
      else if str ".html" <:+ name then "text/html; charset=utf-8"
      else "application/octet-stream" := by
  simp only [getContentType, HasSuffix_iff]

/-- C14, as stated, fails: for `.css`, `.js` and `.html` names the function
returns the MIME type with the parameter `; charset=utf-8`, not the bare type. -/
theorem getContentType_counterexample :
    getContentType (str "style.css") = "text/css; charset=utf-8" ∧
    getContentType (str "style.css") ≠ "text/css" ∧
    getContentType (str "app.js") ≠ "application/javascript" ∧
    getContentType (str "index.html") ≠ "text/html" := by
  decide

/-- C14 (amended): `getContentType` is a suffix-to-type mapping: it returns
`text/css; charset=utf-8` for a name ending in `.css`,
`application/javascript; charset=utf-8` for `.js`, `image/png` for `.png`,
`image/jpeg` for `.jpg` or `.jpeg`, `text/html; charset=utf-8` for `.html`, and
`application/octet-stream` for every other name. -/
theorem getContentType_mapping (name : GoString) :
    (str ".css" <:+ name → getContentType name = "text/css; charset=utf-8") ∧
    (str ".js" <:+ name → getContentType name = "application/javascript; charset=utf-8") ∧
    (str ".png" <:+ name → getContentType name = "image/png") ∧
    (str ".jpg" <:+ name ∨ str ".jpeg" <:+ name → getContentType name = "image/jpeg") ∧
    (str ".html" <:+ name → getContentType name = "text/html; charset=utf-8") ∧
    (¬ str ".css" <:+ name → ¬ str ".js" <:+ name → ¬ str ".png" <:+ name →
      ¬ str ".jpg" <:+ name → ¬ str ".jpeg" <:+ name → ¬ str ".html" <:+ name →
      getContentType name = "application/octet-stream") := by
  rw [getContentType_eq]
  refine ⟨?_, ?_, ?_, ?_, ?_, ?_⟩
  · intro h
    rw [if_pos h]
  · intro h
    have n1 : ¬ str ".css" <:+ name := fun h' => suffix_exclusive h h' (by decide) (by decide)
    rw [if_neg n1, if_pos h]
  · intro h
    have n1 : ¬ str ".css" <:+ name := fun h' => suffix_exclusive h h' (by decide) (by decide)
    have n2 : ¬ str ".js" <:+ name := fun h' => suffix_exclusive h h' (by decide) (by decide)
    rw [if_neg n1, if_neg n2, if_pos h]
  · intro h
    have n1 : ¬ str ".css" <:+ name := by
      rcases h with h | h <;> exact fun h' => suffix_exclusive h h' (by decide) (by decide)
    have n2 : ¬ str ".js" <:+ name := by
      rcases h with h | h <;> exact fun h' => suffix_exclusive h h' (by decide) (by decide)
    have n3 : ¬ str ".png" <:+ name := by
      rcases h with h | h <;> exact fun h' => suffix_exclusive h h' (by decide) (by decide)
    rw [if_neg n1, if_neg n2, if_neg n3, if_pos h]
  · intro h
    have n1 : ¬ str ".css" <:+ name := fun h' => suffix_exclusive h h' (by decide) (by decide)
    have n2 : ¬ str ".js" <:+ name := fun h' => suffix_exclusive h h' (by decide) (by decide)
    have n3 : ¬ str ".png" <:+ name := fun h' => suffix_exclusive h h' (by decide) (by decide)
    have n4 : ¬ (str ".jpg" <:+ name ∨ str ".jpeg" <:+ name) := by
      rintro (h' | h') <;> exact suffix_exclusive h h' (by decide) (by decide)
    rw [if_neg n1, if_neg n2, if_neg n3, if_neg n4, if_pos h]
  · intro n1 n2 n3 n4 n5 n6
    have n45 : ¬ (str ".jpg" <:+ name ∨ str ".jpeg" <:+ name) := by
      rintro (h' | h')
      · exact n4 h'
      · exact n5 h'
    rw [if_neg n1, if_neg n2, if_neg n3, if_neg n45, if_neg n6]

theorem getContentType_mapping_witness :
    getContentType (str "photo.jpeg") = "image/jpeg" :=
  (getContentType_mapping (str "photo.jpeg")).2.2.2.1 (Or.inr ⟨str "photo", rfl⟩)

/-- C15: static asset lookup over the cache as a map from relative path to
bytes: the handler answers 404 when the name is not a key of the cache, and
otherwise 200 with exactly the cached bytes and the content type
`getContentType(name)`; it leaves the cache as it was, so a second lookup of
the same name returns the same bytes. -/
theorem static_lookup (staticCache : StaticCache) (name : GoString) :
    (staticCache name = none →
      (staticFileHandler staticCache name).1 = .text 404 "File not found") ∧
    (∀ data, staticCache name = some data →
      (staticFileHandler staticCache name).1 = .data 200 (getContentType name) data) ∧
    (staticFileHandler staticCache name).2 = staticCache ∧
    (staticFileHandler (staticFileHandler staticCache name).2 name).1
      = (staticFileHandler staticCache name).1 := by
  have hframe : (staticFileHandler staticCache name).2 = staticCache := by
    unfold staticFileHandler
    cases staticCache name <;> rfl
  refine ⟨?_, ?_, hframe, ?_⟩
  · intro h
    unfold staticFileHandler
    rw [h]
  · intro data h
    unfold staticFileHandler
    rw [h]
  · rw [hframe]

theorem static_lookup_witness :
    (staticFileHandler sampleCache (str "app.js")).1
      = .data 200 "application/javascript; charset=utf-8" (str "let a = 1") ∧
    (staticFileHandler sampleCache (str "missing.css")).1 = .text 404 "File not found" :=
  ⟨(static_lookup sampleCache (str "app.js")).2.1 (str "let a = 1") (by decide),
   (static_lookup sampleCache (str "missing.css")).1 (by decide)⟩

end QrGen
